import Mathlib

/-!
# Conway's Game of Life with two buffers (`GameOfLife.cpp`)

A shallow embedding of the program and theorems about it.

* An `int **` array is a list of rows of integers.  Indexing is by C `int`
  (a Lean `Int`); an index outside the allocated block, negative ones
  included, makes the access fail (`none`).
* The two heap blocks are the fields `memA` and `memB` of a `Machine`; the
  pointer variables `current` and `previous` are handles (`Buf`) naming one
  of the blocks.  A store through `current` changes the block it names, the
  pointer swap exchanges the handles and moves no cell.
* `int` addition and multiplication of values that can leave the 32-bit range
  wrap around (`add32`, `mul32`).  Loop counters and `size - 1`, `size - 2`
  stay in range whenever the arrays exist and are computed in `Int`.
* The `#pragma omp parallel for` of the step loop is not modelled: `stepLoop`
  is the sequential execution of the loop over `t`.
-/

namespace GameOfLife

/-! ## Arrays -/

/-- An `int **` array of rows. -/
abbrev Grid := List (List Int)

/-- The read `g[i][j]`; `none` when a row or column index is out of range. -/
def Grid.read (g : Grid) (i j : Int) : Option Int :=
  if 0 ≤ i ∧ 0 ≤ j then
    match g[i.toNat]? with
    | some row => row[j.toNat]?
    | none => none
  else none

/-- The store `g[i][j] = v`; `none` when a row or column index is out of range. -/
def Grid.write (g : Grid) (i j : Int) (v : Int) : Option Grid :=
  if 0 ≤ i ∧ 0 ≤ j then
    match g[i.toNat]? with
    | some row =>
      if j.toNat < row.length then some (g.set i.toNat (row.set j.toNat v)) else none
    | none => none
  else none

/-! ## Machine integers and loops -/

/-- Reduction of an integer to the 32-bit two's complement range. -/
def wrap32 (x : Int) : Int := (x + 2147483648) % 4294967296 - 2147483648

/-- Addition of two `int` values. -/
def add32 (a b : Int) : Int := wrap32 (a + b)

/-- Multiplication of two `int` values. -/
def mul32 (a b : Int) : Int := wrap32 (a * b)

/-- The loop `for (; count iterations left; i++) body`, started at `i`. -/
def forFrom {σ : Type} (body : Int → σ → Option σ) : Nat → Int → σ → Option σ
  | 0, _, s => some s
  | n + 1, i, s =>
    match body i s with
    | none => none
    | some s' => forFrom body n (i + 1) s'

/-- The loop `for (i = lo; i < hi; i++) body`: it runs `hi - lo` times when
`lo < hi` and not at all otherwise. -/
def forRange {σ : Type} (lo hi : Int) (body : Int → σ → Option σ) (s : σ) : Option σ :=
  forFrom body (hi - lo).toNat lo s

/-! ## The two buffers and their handles -/

/-- The two heap blocks returned by the two calls of `allocate_array` in `main`. -/
inductive Buf where
  | A
  | B
  deriving DecidableEq

/-- The memory of `main`: the contents of the two blocks and the values of
the pointer variables `current` and `previous`. -/
structure Machine where
  memA : Grid
  memB : Grid
  current : Buf
  previous : Buf
  deriving DecidableEq

/-- The array a handle points to. -/
def Machine.deref (m : Machine) : Buf → Grid
  | Buf.A => m.memA
  | Buf.B => m.memB

/-- Replace the array a handle points to. -/
def Machine.store (m : Machine) (h : Buf) (g : Grid) : Machine :=
  match h with
  | Buf.A => { m with memA := g }
  | Buf.B => { m with memB := g }

/-- The assignment `current[i][j] = v`. -/
def Machine.assign (m : Machine) (i j v : Int) : Option Machine :=
  match (m.deref m.current).write i j v with
  | some g => some (m.store m.current g)
  | none => none

/-! ## `main`: the step loop (lines 33 to 50) -/

/-- The body of the loop over `j` (lines 36 to 43): the eight reads of
`previous` summed in the order of the source, then the test
`neighbors == 3 || (previous[i][j] + neighbors == 3)`, whose second operand is
evaluated only when the first is false, and the store into `current`. -/
def cellUpdate (i j : Int) (m : Machine) : Option Machine := do
  let previous := m.deref m.previous
  let x1 ← previous.read (i + 1) (j + 1)
  let x2 ← previous.read (i + 1) j
  let x3 ← previous.read (i + 1) (j - 1)
  let x4 ← previous.read i (j - 1)
  let x5 ← previous.read i (j + 1)
  let x6 ← previous.read (i - 1) (j - 1)
  let x7 ← previous.read (i - 1) j
  let x8 ← previous.read (i - 1) (j + 1)
  let neighbors :=
    add32 (add32 (add32 (add32 (add32 (add32 (add32 x1 x2) x3) x4) x5) x6) x7) x8
  if neighbors = 3 then m.assign i j 1
  else do
    let x0 ← previous.read i j
    if add32 x0 neighbors = 3 then m.assign i j 1 else m.assign i j 0

/-- The loops over `i` and `j` (lines 34 to 45): one generation. -/
def step (size : Int) (m : Machine) : Option Machine :=
  forRange 1 (size - 1)
    (fun i m1 => forRange 1 (size - 1) (fun j m2 => cellUpdate i j m2) m1) m

/-- The pointer swap `temp = current; current = previous; previous = temp;`. -/
def swapHandles (m : Machine) : Machine :=
  let temp := m.current
  let m1 := { m with current := m.previous }
  { m1 with previous := temp }

/-- The body of the loop over `t`: one generation, then the swap. -/
def stepBody (size : Int) (m : Machine) : Option Machine :=
  match step size m with
  | some m1 => some (swapHandles m1)
  | none => none

/-- The loop `for (t = 0; t < steps; t++)` (lines 33 to 50), run sequentially. -/
def stepLoop (size steps : Int) (m : Machine) : Option Machine :=
  forRange 0 steps (fun _ m1 => stepBody size m1) m

/-- The loop `for (num_threads = 1; num_threads <= 8; num_threads++)`
(lines 27 to 56), each trial running the step loop sequentially. -/
def trials (size steps : Int) (m : Machine) : Option Machine :=
  forRange 1 9 (fun _ m1 => stepLoop size steps m1) m

/-! ## `allocate_array` and `initialize_random` -/

/-- The block obtained from `malloc`: `size` rows of `size` cells whose
contents `fresh i j` are whatever the allocator left there. -/
def mallocGrid (fresh : Int → Int → Int) (size : Int) : Grid :=
  (List.range size.toNat).map fun (i : Nat) =>
    (List.range size.toNat).map fun (j : Nat) => fresh (i : Int) (j : Int)

/-- `allocate_array` (lines 63 to 75): allocation, then the two loops that
store 0 in every cell. -/
def allocate_array (fresh : Int → Int → Int) (size : Int) : Option Grid :=
  forRange 0 size
    (fun i g1 => forRange 0 size (fun j g2 => g2.write i j 0) g1)
    (mallocGrid fresh size)

/-- The body of the loop of `initialize_random` (lines 88 to 90); `r` is the
value returned by this iteration's call of `rand()`.  `%` and `/` are the
truncating C operators and fail on a zero divisor. -/
def seedCell (size r : Int) (arrays : Grid × Grid) : Option (Grid × Grid) :=
  let d := mul32 (size - 2) (size - 2)
  if d = 0 then none
  else
    let position := Int.tmod r d
    if size - 2 = 0 then none
    else do
      let row := Int.tmod position (size - 2) + 1
      let col := Int.tdiv position (size - 2) + 1
      let array1 ← arrays.1.write row col 1
      let array2 ← arrays.2.write row col 1
      some (array1, array2)

/-- `initialize_random` (lines 84 to 92); `rand k` is the value returned by
the call of `rand()` in iteration `k`. -/
def initialize_random (array1 array2 : Grid) (size : Int) (rand : Nat → Int) :
    Option (Grid × Grid) :=
  forRange 0 (Int.tdiv (mul32 size size) 10)
    (fun i arrays => seedCell size (rand i.toNat) arrays) (array1, array2)

/-- Lines 23 to 25 of `main`: `current` is block `A`, `previous` is block `B`,
and `initialize_random(previous, current, size)` seeds both. -/
def setup (freshA freshB : Int → Int → Int) (size : Int) (rand : Nat → Int) :
    Option Machine := do
  let current ← allocate_array freshA size
  let previous ← allocate_array freshB size
  let seeded ← initialize_random previous current size rand
  some { memA := seeded.2, memB := seeded.1, current := Buf.A, previous := Buf.B }

/-! ## Vocabulary of the specification -/

/-- A `size × size` array. -/
def Square (size : Int) (g : Grid) : Prop :=
  (g.length : Int) = size ∧ ∀ row ∈ g, (row.length : Int) = size

/-- Interior cells: `1 ≤ i, j ≤ size - 2`. -/
def interior (size i j : Int) : Prop :=
  1 ≤ i ∧ i ≤ size - 2 ∧ 1 ≤ j ∧ j ≤ size - 2

/-- Border cells: cells of the array with `i ∈ {0, size-1}` or `j ∈ {0, size-1}`. -/
def border (size i j : Int) : Prop :=
  0 ≤ i ∧ i < size ∧ 0 ≤ j ∧ j < size ∧ (i = 0 ∨ i = size - 1 ∨ j = 0 ∨ j = size - 1)

instance (size i j : Int) : Decidable (interior size i j) := by
  unfold interior; infer_instance

instance (size i j : Int) : Decidable (border size i j) := by
  unfold border; infer_instance

instance (size : Int) (g : Grid) : Decidable (Square size g) := by
  unfold Square; infer_instance

/-- Every cell of the array is 0 or 1. -/
def Binary (g : Grid) : Prop :=
  ∀ row ∈ g, ∀ v ∈ row, v = 0 ∨ v = 1

instance (g : Grid) : Decidable (Binary g) := by
  unfold Binary; infer_instance

/-- The value of a cell, 0 outside the array. -/
def Grid.cell (g : Grid) (i j : Int) : Int := (g.read i j).getD 0

/-- The eight cells adjacent to `(i, j)`: offsets `(±1,0)`, `(0,±1)`, `(±1,±1)`. -/
def adjacent (i j : Int) : List (Int × Int) :=
  [(i - 1, j - 1), (i - 1, j), (i - 1, j + 1), (i, j - 1), (i, j + 1),
   (i + 1, j - 1), (i + 1, j), (i + 1, j + 1)]

/-- The number of live cells among the eight adjacent cells. -/
def liveNeighbours (g : Grid) (i j : Int) : Nat :=
  (adjacent i j).countP fun p => g.read p.1 p.2 = some 1

/-- The sum of the eight adjacent cell values. -/
def neighbourSum (g : Grid) (i j : Int) : Int :=
  ((adjacent i j).map fun p => g.cell p.1 p.2).sum

/-- The value `neighbors` of the source at `(i, j)`, as a function of `previous`. -/
def neighbors (g : Grid) (i j : Int) : Int :=
  add32 (add32 (add32 (add32 (add32 (add32 (add32
    (g.cell (i + 1) (j + 1)) (g.cell (i + 1) j)) (g.cell (i + 1) (j - 1)))
    (g.cell i (j - 1))) (g.cell i (j + 1)))
    (g.cell (i - 1) (j - 1))) (g.cell (i - 1) j)) (g.cell (i - 1) (j + 1))

/-- The value the source stores at `(i, j)`, as a function of `previous`. -/
def nextCell (g : Grid) (i j : Int) : Int :=
  if neighbors g i j = 3 ∨ add32 (g.cell i j) (neighbors g i j) = 3 then 1 else 0

/-- The `n × n` array with `f i j` at `(i, j)`. -/
def tabulate (n : Nat) (f : Int → Int → Int) : Grid :=
  (List.range n).map fun (i : Nat) => (List.range n).map fun (j : Nat) => f (i : Int) (j : Int)

/-- The single-grid transition function: every border cell is kept and the
rule of the step, `nextCell`, is applied to every interior cell. -/
def nextGen (size : Int) (g : Grid) : Grid :=
  tabulate size.toNat fun i j => if interior size i j then nextCell g i j else g.cell i j

/-- The rule in the words of the specification: 1 if `neighbors == 3`, or if
the cell is 1 and `neighbors == 2`; otherwise 0, where `neighbors` is the sum
of the eight adjacent cell values. -/
def specCell (g : Grid) (i j : Int) : Int :=
  if neighbourSum g i j = 3 ∨ (g.cell i j = 1 ∧ neighbourSum g i j = 2) then 1 else 0

/-- The single-grid transition function with the rule in the words of the
specification. -/
def specGen (size : Int) (g : Grid) : Grid :=
  tabulate size.toNat fun i j => if interior size i j then specCell g i j else g.cell i j

/-! ## Frames -/

/-- The cells a run may have changed: the handles are those of `m`, the
array `current` does not point to is untouched, and each cell of the array it
points to holds its old value or is an interior cell holding 0 or 1. -/
def FrameOf (size : Int) (m t : Machine) : Prop :=
  t.current = m.current ∧ t.previous = m.previous ∧
    (∀ b, b ≠ m.current → t.deref b = m.deref b) ∧
    ∀ a c, (t.deref m.current).read a c = (m.deref m.current).read a c ∨
      (interior size a c ∧
        ((t.deref m.current).read a c = some 0 ∨ (t.deref m.current).read a c = some 1))

/-! ## Patterns and concrete inputs -/

/-- The `size × size` grid whose only live cells are the horizontal blinker
`(r, c-1)`, `(r, c)`, `(r, c+1)`. -/
def blinkerH (size r c : Int) : Grid :=
  tabulate size.toNat fun i j => if i = r ∧ (j = c - 1 ∨ j = c ∨ j = c + 1) then 1 else 0

/-- The `size × size` grid whose only live cells are the vertical blinker
`(r-1, c)`, `(r, c)`, `(r+1, c)`. -/
def blinkerV (size r c : Int) : Grid :=
  tabulate size.toNat fun i j => if (i = r - 1 ∨ i = r ∨ i = r + 1) ∧ j = c then 1 else 0

/-- The `size × size` grid whose only live cells are the 2 × 2 block
`(r, c)`, `(r, c+1)`, `(r+1, c)`, `(r+1, c+1)`. -/
def blockGrid (size r c : Int) : Grid :=
  tabulate size.toNat fun i j => if (i = r ∨ i = r + 1) ∧ (j = c ∨ j = c + 1) then 1 else 0

/-- The `size × size` grid with every cell dead. -/
def deadGrid (size : Int) : Grid :=
  tabulate size.toNat fun _ _ => 0

/-- The horizontal blinker of the 5 × 5 scenario. -/
def witnessGrid5 : Grid :=
  [[0, 0, 0, 0, 0], [0, 0, 0, 0, 0], [0, 1, 1, 1, 0], [0, 0, 0, 0, 0], [0, 0, 0, 0, 0]]

/-- Both buffers hold the 5 × 5 blinker; `current` is block `A`. -/
def witnessMachine5 : Machine :=
  { memA := witnessGrid5, memB := witnessGrid5, current := Buf.A, previous := Buf.B }

/-- A 5 × 5 array with a dead border and stale interior contents. -/
def staleGrid5 : Grid :=
  [[0, 0, 0, 0, 0], [0, 1, 0, 1, 0], [0, 0, 0, 0, 0], [0, 1, 1, 0, 0], [0, 0, 0, 0, 0]]

/-- The blinker in `previous` (block `B`), stale contents in `current` (block `A`). -/
def staleMachine5 : Machine :=
  { memA := staleGrid5, memB := witnessGrid5, current := Buf.A, previous := Buf.B }

/-- A 4 × 4 array holding the 2 × 2 block at `(1, 1)`. -/
def blockGrid4 : Grid :=
  [[0, 0, 0, 0], [0, 1, 1, 0], [0, 1, 1, 0], [0, 0, 0, 0]]

/-- Both buffers hold the 4 × 4 block. -/
def blockMachine4 : Machine :=
  { memA := blockGrid4, memB := blockGrid4, current := Buf.A, previous := Buf.B }

/-- A 3 × 3 array whose interior cell is dead and whose top border row is alive. -/
def liveBorderGrid3 : Grid :=
  [[1, 1, 1], [0, 0, 0], [0, 0, 0]]

/-- Both buffers hold the 3 × 3 array with the live top border. -/
def liveBorderMachine3 : Machine :=
  { memA := liveBorderGrid3, memB := liveBorderGrid3, current := Buf.A, previous := Buf.B }

/-- A 3 × 3 array with every cell dead. -/
def deadGrid3 : Grid :=
  [[0, 0, 0], [0, 0, 0], [0, 0, 0]]

/-- Both buffers hold the dead 3 × 3 array. -/
def deadMachine3 : Machine :=
  { memA := deadGrid3, memB := deadGrid3, current := Buf.A, previous := Buf.B }

/-- A binary 3 × 3 array whose interior cell is alive with three live neighbours. -/
def crowdedGrid3 : Grid :=
  [[1, 1, 1], [0, 1, 0], [0, 0, 0]]

/-- Both buffers hold the 3 × 3 array with the live centre. -/
def crowdedMachine3 : Machine :=
  { memA := crowdedGrid3, memB := crowdedGrid3, current := Buf.A, previous := Buf.B }

/-- Two 2 × 2 buffers: every cell is a border cell. -/
def smallMachine2 : Machine :=
  { memA := [[1, 1], [0, 0]], memB := [[0, 1], [1, 0]], current := Buf.A, previous := Buf.B }

/-- A 4 × 4 array of zeros, as `allocate_array(4)` returns it. -/
def allocated4 : Grid :=
  [[0, 0, 0, 0], [0, 0, 0, 0], [0, 0, 0, 0], [0, 0, 0, 0]]

/-- A sequence of non-negative values for `rand()`. -/
def witnessRand (k : Nat) : Int := 7 + (k : Int)

/-! ## Further vocabulary: trials, orders of update, seeding -/

/-- The first `k` rounds of the loop over `num_threads` (lines 27 to 56), each
running the step loop sequentially; `trials` is the case `k = 8`. -/
def trialsPrefix (size steps k : Int) (m : Machine) : Option Machine :=
  forRange 1 (k + 1) (fun _ m1 => stepLoop size steps m1) m

/-- The loop body of lines 36 to 43 executed at the cells of a list, in the
order of the list. -/
def runCells : List (Int × Int) → Machine → Option Machine
  | [], m => some m
  | c :: cs, m =>
    match cellUpdate c.1 c.2 m with
    | none => none
    | some m1 => runCells cs m1

/-- The values `1, 2, …, size - 2` taken by `i` and by `j` in lines 34 and 35. -/
def interiorRange (size : Int) : List Int :=
  (List.range (size - 2).toNat).map fun (k : Nat) => (k : Int) + 1

/-- The cells of one row in the order of the loop over `j`. -/
def rowCells (size i : Int) : List (Int × Int) :=
  (interiorRange size).map fun j => (i, j)

/-- The interior cells in the row-major order of lines 34 and 35. -/
def rowMajor (size : Int) : List (Int × Int) :=
  (interiorRange size).flatMap fun i => rowCells size i

/-- The interior cells taken row by row, the rows in the order of `rows`. -/
def sliceOrder (size : Int) (rows : List Int) : List (Int × Int) :=
  rows.flatMap fun i => rowCells size i

/-- The number of live cells of an array. -/
def liveCount (g : Grid) : Nat :=
  (g.map fun row => row.count 1).sum

/-- The bound `(size * size) / 10` of the loop of `initialize_random`. -/
def seedCount (size : Int) : Int := Int.tdiv (mul32 size size) 10

/-- The divisor `(size - 2) * (size - 2)` of line 88. -/
def seedDivisor (size : Int) : Int := mul32 (size - 2) (size - 2)

/-- The value `position` of line 88 for the value `r` returned by `rand()`. -/
def seedPosition (size r : Int) : Int := Int.tmod r (seedDivisor size)

/-- The row index `position % (size - 2) + 1` of lines 89 and 90. -/
def seedRow (size r : Int) : Int := Int.tmod (seedPosition size r) (size - 2) + 1

/-- The column index `(position / (size - 2)) + 1` of lines 89 and 90. -/
def seedCol (size r : Int) : Int := Int.tdiv (seedPosition size r) (size - 2) + 1

/-- The state of one array after `k` rounds of the loop of `initialize_random`
started on zeros: a `size × size` array whose cells are 0, or 1 at an interior
cell, with at most `k` live cells and at least one when `k ≥ 1`. -/
def SeededUpTo (size k : Int) (g : Grid) : Prop :=
  Square size g ∧
    (∀ i j, 0 ≤ i → i < size → 0 ≤ j → j < size →
      g.read i j = some 0 ∨ (g.read i j = some 1 ∧ interior size i j)) ∧
    (liveCount g : Int) ≤ k ∧ (1 ≤ k → 1 ≤ liveCount g)

/-! ## Reads and stores on arrays -/

theorem Grid.read_write {g g' : Grid} {i j v : Int} (h : g.write i j v = some g')
    (a b : Int) : g'.read a b = if a = i ∧ b = j then some v else g.read a b := by
  unfold Grid.write at h
  split at h
  · rename_i hij
    split at h
    · rename_i row hrow
      split at h
      · rename_i hj
        injection h with h
        subst h
        have hi : i.toNat < g.length := by
          rcases Nat.lt_or_ge i.toNat g.length with hlt | hge
          · exact hlt
          · rw [List.getElem?_eq_none hge] at hrow; cases hrow
        unfold Grid.read
        by_cases hab : 0 ≤ a ∧ 0 ≤ b
        · simp only [hab, and_self, if_true, List.getElem?_set]
          by_cases hai : a = i
          · subst hai
            simp only [true_and, if_true, hi, hrow]
            by_cases hbj : b = j
            · subst hbj
              simp [hj]
            · have : ¬ j.toNat = b.toNat := by omega
              simp [hbj, this]
          · have : ¬ i.toNat = a.toNat := by omega
            simp [hai, this]
        · have : ¬ (a = i ∧ b = j) := by omega
          simp [hab, this]
      · cases h
    · cases h
  · cases h

theorem Grid.write_square {size : Int} {g g' : Grid} {i j v : Int}
    (hg : Square size g) (h : g.write i j v = some g') : Square size g' := by
  unfold Grid.write at h
  split at h
  · split at h
    · rename_i row hrow
      split at h
      · injection h with h
        subst h
        refine ⟨by simpa using hg.1, ?_⟩
        intro r hr
        rcases List.mem_or_eq_of_mem_set hr with hr | hr
        · exact hg.2 r hr
        · subst hr
          simpa using hg.2 row (List.getElem?_mem hrow)
      · cases h
    · cases h
  · cases h

theorem Grid.read_of_square {size : Int} {g : Grid} (hg : Square size g) {i j : Int}
    (hi0 : 0 ≤ i) (hi : i < size) (hj0 : 0 ≤ j) (hj : j < size) :
    ∃ v, g.read i j = some v := by
  have hlen : i.toNat < g.length := by have := hg.1; omega
  have hrow : (g[i.toNat]).length = size.toNat := by
    have := hg.2 _ (List.getElem_mem hlen); omega
  have hj' : j.toNat < (g[i.toNat]).length := by omega
  refine ⟨(g[i.toNat])[j.toNat], ?_⟩
  simp [Grid.read, hi0, hj0, List.getElem?_eq_getElem hlen, List.getElem?_eq_getElem hj']

theorem Grid.read_none_of_square {size : Int} {g : Grid} (hg : Square size g) {i j : Int}
    (h : ¬ (0 ≤ i ∧ i < size ∧ 0 ≤ j ∧ j < size)) : g.read i j = none := by
  unfold Grid.read
  split
  · rename_i hij
    split
    · rename_i row hrow
      have hmem := List.getElem?_mem hrow
      have hlen := hg.2 row hmem
      have hi : i.toNat < g.length := by
        rcases Nat.lt_or_ge i.toNat g.length with hlt | hge
        · exact hlt
        · rw [List.getElem?_eq_none hge] at hrow; cases hrow
      have := hg.1
      apply List.getElem?_eq_none
      omega
    · rfl
  · rfl

theorem Grid.write_of_square {size : Int} {g : Grid} (hg : Square size g) {i j : Int}
    (hi0 : 0 ≤ i) (hi : i < size) (hj0 : 0 ≤ j) (hj : j < size) (v : Int) :
    ∃ g', g.write i j v = some g' := by
  have hlen : i.toNat < g.length := by have := hg.1; omega
  have hrow : (g[i.toNat]).length = size.toNat := by
    have := hg.2 _ (List.getElem_mem hlen); omega
  have hj' : j.toNat < (g[i.toNat]).length := by omega
  refine ⟨g.set i.toNat ((g[i.toNat]).set j.toNat v), ?_⟩
  simp [Grid.write, hi0, hj0, List.getElem?_eq_getElem hlen, hj']

theorem Grid.square_ext {size : Int} {g h : Grid} (hg : Square size g) (hh : Square size h)
    (hread : ∀ i j, 0 ≤ i → i < size → 0 ≤ j → j < size → g.read i j = h.read i j) :
    g = h := by
  have hgl := hg.1
  have hhl := hh.1
  apply List.ext_getElem (by omega)
  intro n h1 h2
  have hr1 := hg.2 _ (List.getElem_mem h1)
  have hr2 := hh.2 _ (List.getElem_mem h2)
  apply List.ext_getElem (by omega)
  intro k k1 k2
  have := hread n k (by omega) (by omega) (by omega) (by omega)
  simpa [Grid.read, List.getElem?_eq_getElem h1, List.getElem?_eq_getElem h2,
    List.getElem?_eq_getElem k1, List.getElem?_eq_getElem k2] using this

/-! ## Loops, handles and the loop body -/

theorem forFrom_total {σ : Type} (body : Int → σ → Option σ) (Inv : Int → σ → Prop) :
    ∀ (n : Nat) (i : Int) (s : σ), Inv i s →
      (∀ k t, i ≤ k → k < i + n → Inv k t → ∃ t', body k t = some t' ∧ Inv (k + 1) t') →
      ∃ s', forFrom body n i s = some s' ∧ Inv (i + n) s' := by
  intro n
  induction n with
  | zero => intro i s h0 _; exact ⟨s, rfl, by simpa using h0⟩
  | succ n ih =>
    intro i s h0 hstep
    obtain ⟨t, ht, hInv⟩ := hstep i s (le_refl i) (by push_cast; omega) h0
    obtain ⟨s', hs', hInv'⟩ := ih (i + 1) t hInv (fun k u hk1 hk2 hu =>
      hstep k u (by omega) (by push_cast; omega) hu)
    refine ⟨s', ?_, ?_⟩
    · simp only [forFrom, ht]; exact hs'
    · have : i + ((n + 1 : Nat) : Int) = i + 1 + (n : Int) := by push_cast; omega
      rw [this]; exact hInv'

theorem forRange_total {σ : Type} (lo hi : Int) (body : Int → σ → Option σ)
    (Inv : Int → σ → Prop) (s : σ) (h0 : Inv lo s)
    (hstep : ∀ k t, lo ≤ k → k < hi → Inv k t → ∃ t', body k t = some t' ∧ Inv (k + 1) t') :
    ∃ s', forRange lo hi body s = some s' ∧ Inv (max lo hi) s' := by
  have hmax : lo + (((hi - lo).toNat : Nat) : Int) = max lo hi := by omega
  obtain ⟨s', hs', hInv⟩ := forFrom_total body Inv (hi - lo).toNat lo s h0
    (fun k t hk1 hk2 ht => hstep k t hk1 (by omega) ht)
  exact ⟨s', hs', hmax ▸ hInv⟩

theorem forFrom_inv {σ : Type} (body : Int → σ → Option σ) (P : σ → Prop) :
    ∀ (n : Nat) (i : Int) (s s' : σ), P s →
      (∀ k t t', i ≤ k → k < i + n → P t → body k t = some t' → P t') →
      forFrom body n i s = some s' → P s' := by
  intro n
  induction n with
  | zero => intro i s s' h0 _ h; simp only [forFrom] at h; cases h; exact h0
  | succ n ih =>
    intro i s s' h0 hstep h
    simp only [forFrom] at h
    split at h
    · cases h
    · rename_i t ht
      exact ih (i + 1) t s' (hstep i s t (le_refl i) (by push_cast; omega) h0 ht)
        (fun k u u' hk1 hk2 hu hb => hstep k u u' (by omega) (by push_cast; omega) hu hb) h

theorem forRange_inv {σ : Type} (lo hi : Int) (body : Int → σ → Option σ) (P : σ → Prop)
    (s s' : σ) (h0 : P s)
    (hstep : ∀ k t t', lo ≤ k → k < hi → P t → body k t = some t' → P t')
    (h : forRange lo hi body s = some s') : P s' :=
  forFrom_inv body P (hi - lo).toNat lo s s' h0
    (fun k t t' hk1 hk2 ht hb => hstep k t t' hk1 (by omega) ht hb) h

theorem forRange_empty {σ : Type} (lo hi : Int) (body : Int → σ → Option σ) (s : σ)
    (h : hi ≤ lo) : forRange lo hi body s = some s := by
  have : (hi - lo).toNat = 0 := by omega
  simp [forRange, this, forFrom]

/-- A loop whose body ignores the counter depends only on the number of rounds. -/
theorem forFrom_const {σ : Type} (f : σ → Option σ) :
    ∀ (n : Nat) (i j : Int) (s : σ),
      forFrom (fun _ t => f t) n i s = forFrom (fun _ t => f t) n j s := by
  intro n
  induction n with
  | zero => intro i j s; rfl
  | succ n ih =>
    intro i j s
    simp only [forFrom]
    cases f s with
    | none => rfl
    | some t => exact ih (i + 1) (j + 1) t

theorem Machine.deref_store (m : Machine) (h h' : Buf) (g : Grid) :
    (m.store h g).deref h' = if h' = h then g else m.deref h' := by
  cases h <;> cases h' <;> simp [Machine.store, Machine.deref]

theorem Machine.store_current (m : Machine) (h : Buf) (g : Grid) :
    (m.store h g).current = m.current := by
  cases h <;> rfl

theorem Machine.store_previous (m : Machine) (h : Buf) (g : Grid) :
    (m.store h g).previous = m.previous := by
  cases h <;> rfl

theorem Machine.ext_deref {m m' : Machine} (hc : m.current = m'.current)
    (hp : m.previous = m'.previous) (hd : ∀ h, m.deref h = m'.deref h) : m = m' := by
  cases m; cases m'
  have hA := hd Buf.A
  have hB := hd Buf.B
  simp only [Machine.deref] at hA hB
  simp_all

theorem Grid.read_eq_cell {size : Int} {g : Grid} (hg : Square size g) {i j : Int}
    (hi0 : 0 ≤ i) (hi : i < size) (hj0 : 0 ≤ j) (hj : j < size) :
    g.read i j = some (g.cell i j) := by
  obtain ⟨v, hv⟩ := Grid.read_of_square hg hi0 hi hj0 hj
  simp [Grid.cell, hv]

/-- What one execution of the loop body does, whatever the arrays: it stores
0 or 1 at `(i, j)` of the array `current` points to. -/
theorem cellUpdate_some {i j : Int} {m m' : Machine} (h : cellUpdate i j m = some m') :
    ∃ v g', (v = 0 ∨ v = 1) ∧ (m.deref m.current).write i j v = some g' ∧
      m' = m.store m.current g' := by
  have key : ∀ v : Int, (v = 0 ∨ v = 1) → m.assign i j v = some m' →
      ∃ v g', (v = 0 ∨ v = 1) ∧ (m.deref m.current).write i j v = some g' ∧
        m' = m.store m.current g' := by
    intro v hv ha
    unfold Machine.assign at ha
    split at ha
    · rename_i g' hg'
      injection ha with ha
      exact ⟨v, g', hv, hg', ha.symm⟩
    · cases ha
  simp only [cellUpdate, Option.bind_eq_bind, Option.bind_eq_some] at h
  obtain ⟨x1, -, x2, -, x3, -, x4, -, x5, -, x6, -, x7, -, x8, -, h⟩ := h
  split at h
  · exact key 1 (Or.inr rfl) h
  · simp only [Option.bind_eq_bind, Option.bind_eq_some] at h
    obtain ⟨x0, -, h⟩ := h
    split at h
    · exact key 1 (Or.inr rfl) h
    · exact key 0 (Or.inl rfl) h

/-- On an interior cell of a `size × size` array every read succeeds and the
loop body is the store of `nextCell`. -/
theorem cellUpdate_eq {size i j : Int} {m : Machine}
    (hp : Square size (m.deref m.previous)) (hij : interior size i j) :
    cellUpdate i j m = m.assign i j (nextCell (m.deref m.previous) i j) := by
  obtain ⟨h1, h2, h3, h4⟩ := hij
  have r := fun (a b : Int) (ha0 : 0 ≤ a) (ha : a < size) (hb0 : 0 ≤ b) (hb : b < size) =>
    Grid.read_eq_cell hp ha0 ha hb0 hb
  simp only [cellUpdate, Option.bind_eq_bind,
    r (i + 1) (j + 1) (by omega) (by omega) (by omega) (by omega),
    r (i + 1) j (by omega) (by omega) (by omega) (by omega),
    r (i + 1) (j - 1) (by omega) (by omega) (by omega) (by omega),
    r i (j - 1) (by omega) (by omega) (by omega) (by omega),
    r i (j + 1) (by omega) (by omega) (by omega) (by omega),
    r (i - 1) (j - 1) (by omega) (by omega) (by omega) (by omega),
    r (i - 1) j (by omega) (by omega) (by omega) (by omega),
    r (i - 1) (j + 1) (by omega) (by omega) (by omega) (by omega),
    r i j (by omega) (by omega) (by omega) (by omega), Option.some_bind]
  unfold nextCell neighbors
  by_cases hn : add32 (add32 (add32 (add32 (add32 (add32 (add32
      ((m.deref m.previous).cell (i + 1) (j + 1)) ((m.deref m.previous).cell (i + 1) j))
      ((m.deref m.previous).cell (i + 1) (j - 1)))
      ((m.deref m.previous).cell i (j - 1))) ((m.deref m.previous).cell i (j + 1)))
      ((m.deref m.previous).cell (i - 1) (j - 1))) ((m.deref m.previous).cell (i - 1) j))
      ((m.deref m.previous).cell (i - 1) (j + 1)) = 3
  · simp [hn]
  · simp only [hn, if_false, false_or]
    split <;> rfl

/-! ## One generation -/

/-- The loop over `j` for one interior row `i`. -/
theorem row_spec {size i : Int} {m1 : Machine} (hne : m1.current ≠ m1.previous)
    (hc : Square size (m1.deref m1.current)) (hp : Square size (m1.deref m1.previous))
    (hi1 : 1 ≤ i) (hi2 : i ≤ size - 2) :
    ∃ m2, forRange 1 (size - 1) (fun j m => cellUpdate i j m) m1 = some m2 ∧
      m2.current = m1.current ∧ m2.previous = m1.previous ∧
      m2.deref m1.previous = m1.deref m1.previous ∧
      Square size (m2.deref m1.current) ∧
      ∀ a b, (m2.deref m1.current).read a b =
        if a = i ∧ 1 ≤ b ∧ b ≤ size - 2 then some (nextCell (m1.deref m1.previous) a b)
        else (m1.deref m1.current).read a b := by
  obtain ⟨m2, hrun, h1, h2, h3, h4, h5⟩ := forRange_total 1 (size - 1)
    (fun j m => cellUpdate i j m)
    (fun j m => m.current = m1.current ∧ m.previous = m1.previous ∧
      m.deref m1.previous = m1.deref m1.previous ∧
      Square size (m.deref m1.current) ∧
      ∀ a b, (m.deref m1.current).read a b =
        if a = i ∧ 1 ≤ b ∧ b < j then some (nextCell (m1.deref m1.previous) a b)
        else (m1.deref m1.current).read a b)
    m1 ⟨rfl, rfl, rfl, hc, fun a b => by
      have : ¬ (a = i ∧ 1 ≤ b ∧ b < 1) := by omega
      simp [this]⟩
    (by
      intro k t hk1 hk2 ⟨t1, t2, t3, t4, t5⟩
      have hpt : Square size (t.deref t.previous) := by rw [t2, t3]; exact hp
      have hct : Square size (t.deref t.current) := by rw [t1]; exact t4
      obtain ⟨g', hg'⟩ := Grid.write_of_square hct (i := i) (j := k) (by omega) (by omega)
        (by omega) (by omega) (nextCell (t.deref t.previous) i k)
      refine ⟨t.store t.current g', ?_, ?_, ?_, ?_, ?_, ?_⟩
      · show cellUpdate i k t = _
        rw [cellUpdate_eq hpt ⟨hi1, hi2, hk1, by omega⟩]
        simp [Machine.assign, hg']
      · rw [Machine.store_current, t1]
      · rw [Machine.store_previous, t2]
      · rw [Machine.deref_store, t1, if_neg (Ne.symm hne), t3]
      · rw [Machine.deref_store, t1, if_pos rfl]
        exact Grid.write_square hct hg'
      · intro a b
        rw [Machine.deref_store, t1, if_pos rfl, Grid.read_write hg' a b, ← t1, t1, t5 a b,
          t2, t3]
        by_cases hab : a = i ∧ b = k
        · have h' : a = i ∧ 1 ≤ b ∧ b < k + 1 := by omega
          rw [if_pos hab, if_pos h', hab.1, hab.2]
        · have e : (a = i ∧ 1 ≤ b ∧ b < k + 1) ↔ (a = i ∧ 1 ≤ b ∧ b < k) := by omega
          rw [if_neg hab]
          simp only [e])
  refine ⟨m2, hrun, h1, h2, h3, h4, ?_⟩
  intro a b
  rw [h5 a b]
  have : (a = i ∧ 1 ≤ b ∧ b < max 1 (size - 1)) ↔ (a = i ∧ 1 ≤ b ∧ b ≤ size - 2) := by omega
  simp only [this]

/-- One generation on two distinct `size × size` arrays: the run succeeds,
the handles and the array read are unchanged, and the array written holds
`nextCell` of the array read at every interior cell and its old value elsewhere. -/
theorem step_spec {size : Int} {m : Machine} (hne : m.current ≠ m.previous)
    (hc : Square size (m.deref m.current)) (hp : Square size (m.deref m.previous)) :
    ∃ m', step size m = some m' ∧
      m'.current = m.current ∧ m'.previous = m.previous ∧
      m'.deref m.previous = m.deref m.previous ∧
      Square size (m'.deref m.current) ∧
      ∀ a b, (m'.deref m.current).read a b =
        if interior size a b then some (nextCell (m.deref m.previous) a b)
        else (m.deref m.current).read a b := by
  obtain ⟨m', hrun, h1, h2, h3, h4, h5⟩ := forRange_total 1 (size - 1)
    (fun i m1 => forRange 1 (size - 1) (fun j m2 => cellUpdate i j m2) m1)
    (fun i t => t.current = m.current ∧ t.previous = m.previous ∧
      t.deref m.previous = m.deref m.previous ∧
      Square size (t.deref m.current) ∧
      ∀ a b, (t.deref m.current).read a b =
        if 1 ≤ a ∧ a < i ∧ 1 ≤ b ∧ b ≤ size - 2 then some (nextCell (m.deref m.previous) a b)
        else (m.deref m.current).read a b)
    m ⟨rfl, rfl, rfl, hc, fun a b => by
      have : ¬ (1 ≤ a ∧ a < 1 ∧ 1 ≤ b ∧ b ≤ size - 2) := by omega
      simp [this]⟩
    (by
      intro k t hk1 hk2 ⟨t1, t2, t3, t4, t5⟩
      have hnet : t.current ≠ t.previous := by rw [t1, t2]; exact hne
      have hpt : Square size (t.deref t.previous) := by rw [t2, t3]; exact hp
      have hct : Square size (t.deref t.current) := by rw [t1]; exact t4
      obtain ⟨t', hrun, r1, r2, r3, r4, r5⟩ := row_spec hnet hct hpt hk1 (by omega)
      rw [t1] at r4 r5
      rw [t2] at r3
      refine ⟨t', hrun, r1.trans t1, r2.trans t2, r3.trans t3, r4, ?_⟩
      intro a b
      rw [r5 a b, t5 a b, t2, t3]
      by_cases c1 : a = k ∧ 1 ≤ b ∧ b ≤ size - 2
      · have c3 : 1 ≤ a ∧ a < k + 1 ∧ 1 ≤ b ∧ b ≤ size - 2 := by omega
        rw [if_pos c1, if_pos c3]
      · by_cases c2 : 1 ≤ a ∧ a < k ∧ 1 ≤ b ∧ b ≤ size - 2
        · have c3 : 1 ≤ a ∧ a < k + 1 ∧ 1 ≤ b ∧ b ≤ size - 2 := by omega
          rw [if_neg c1, if_pos c2, if_pos c3]
        · have c3 : ¬ (1 ≤ a ∧ a < k + 1 ∧ 1 ≤ b ∧ b ≤ size - 2) := by omega
          rw [if_neg c1, if_neg c2, if_neg c3])
  refine ⟨m', hrun, h1, h2, h3, h4, ?_⟩
  intro a b
  rw [h5 a b]
  have : (1 ≤ a ∧ a < max 1 (size - 1) ∧ 1 ≤ b ∧ b ≤ size - 2) ↔ interior size a b := by
    unfold interior; omega
  simp only [this]

/-! ## The rule on binary arrays -/

theorem Grid.read_one_iff (g : Grid) (i j : Int) : g.read i j = some 1 ↔ g.cell i j = 1 := by
  unfold Grid.cell
  cases h : g.read i j with
  | none => simp
  | some v => simp

theorem Grid.mem_of_read {g : Grid} {i j v : Int} (h : g.read i j = some v) :
    ∃ row ∈ g, v ∈ row := by
  unfold Grid.read at h
  split at h
  · split at h
    · rename_i row hrow
      exact ⟨row, List.getElem?_mem hrow, List.getElem?_mem h⟩
    · cases h
  · cases h

theorem Grid.read_of_mem {g : Grid} {row : List Int} {v : Int} (hr : row ∈ g) (hv : v ∈ row) :
    ∃ i j, g.read i j = some v := by
  obtain ⟨n, hn⟩ := List.mem_iff_getElem?.1 hr
  obtain ⟨k, hk⟩ := List.mem_iff_getElem?.1 hv
  refine ⟨(n : Int), (k : Int), ?_⟩
  simp [Grid.read, hn, hk]

theorem binary_iff_read (g : Grid) :
    Binary g ↔ ∀ i j v, g.read i j = some v → v = 0 ∨ v = 1 := by
  constructor
  · intro hg i j v h
    obtain ⟨row, hr, hv⟩ := Grid.mem_of_read h
    exact hg row hr v hv
  · intro h row hr v hv
    obtain ⟨i, j, hij⟩ := Grid.read_of_mem hr hv
    exact h i j v hij

theorem Grid.cell_binary {g : Grid} (hg : Binary g) (i j : Int) :
    g.cell i j = 0 ∨ g.cell i j = 1 := by
  unfold Grid.cell
  cases h : g.read i j with
  | none => simp
  | some v => simpa using (binary_iff_read g).1 hg i j v h

theorem Grid.cell_bounds {g : Grid} (hg : Binary g) (i j : Int) :
    0 ≤ g.cell i j ∧ g.cell i j ≤ 1 := by
  rcases Grid.cell_binary hg i j with h | h <;> omega

theorem neighbourSum_eq (g : Grid) (i j : Int) :
    neighbourSum g i j =
      g.cell (i - 1) (j - 1) + g.cell (i - 1) j + g.cell (i - 1) (j + 1) + g.cell i (j - 1) +
        g.cell i (j + 1) + g.cell (i + 1) (j - 1) + g.cell (i + 1) j +
        g.cell (i + 1) (j + 1) := by
  simp [neighbourSum, adjacent]
  ring

theorem add32_small {a b : Int} (h1 : -2147483648 ≤ a + b) (h2 : a + b < 2147483648) :
    add32 a b = a + b := by
  unfold add32 wrap32
  omega

theorem sum32_binary {x1 x2 x3 x4 x5 x6 x7 x8 : Int}
    (h1 : 0 ≤ x1 ∧ x1 ≤ 1) (h2 : 0 ≤ x2 ∧ x2 ≤ 1) (h3 : 0 ≤ x3 ∧ x3 ≤ 1)
    (h4 : 0 ≤ x4 ∧ x4 ≤ 1) (h5 : 0 ≤ x5 ∧ x5 ≤ 1) (h6 : 0 ≤ x6 ∧ x6 ≤ 1)
    (h7 : 0 ≤ x7 ∧ x7 ≤ 1) (h8 : 0 ≤ x8 ∧ x8 ≤ 1) :
    add32 (add32 (add32 (add32 (add32 (add32 (add32 x1 x2) x3) x4) x5) x6) x7) x8 =
      x1 + x2 + x3 + x4 + x5 + x6 + x7 + x8 := by
  have e2 : add32 x1 x2 = x1 + x2 := add32_small (by omega) (by omega)
  have e3 : add32 (x1 + x2) x3 = x1 + x2 + x3 := add32_small (by omega) (by omega)
  have e4 : add32 (x1 + x2 + x3) x4 = x1 + x2 + x3 + x4 := add32_small (by omega) (by omega)
  have e5 : add32 (x1 + x2 + x3 + x4) x5 = x1 + x2 + x3 + x4 + x5 :=
    add32_small (by omega) (by omega)
  have e6 : add32 (x1 + x2 + x3 + x4 + x5) x6 = x1 + x2 + x3 + x4 + x5 + x6 :=
    add32_small (by omega) (by omega)
  have e7 : add32 (x1 + x2 + x3 + x4 + x5 + x6) x7 = x1 + x2 + x3 + x4 + x5 + x6 + x7 :=
    add32_small (by omega) (by omega)
  have e8 : add32 (x1 + x2 + x3 + x4 + x5 + x6 + x7) x8 =
      x1 + x2 + x3 + x4 + x5 + x6 + x7 + x8 := add32_small (by omega) (by omega)
  rw [e2, e3, e4, e5, e6, e7, e8]

/-- On a binary array the 32-bit sum of the source is the sum of the eight
adjacent cells: nothing wraps. -/
theorem neighbors_eq_sum {g : Grid} (hg : Binary g) (i j : Int) :
    neighbors g i j = neighbourSum g i j := by
  rw [neighbourSum_eq]
  have h1 := Grid.cell_bounds hg (i + 1) (j + 1)
  have h2 := Grid.cell_bounds hg (i + 1) j
  have h3 := Grid.cell_bounds hg (i + 1) (j - 1)
  have h4 := Grid.cell_bounds hg i (j - 1)
  have h5 := Grid.cell_bounds hg i (j + 1)
  have h6 := Grid.cell_bounds hg (i - 1) (j - 1)
  have h7 := Grid.cell_bounds hg (i - 1) j
  have h8 := Grid.cell_bounds hg (i - 1) (j + 1)
  unfold neighbors
  rw [sum32_binary h1 h2 h3 h4 h5 h6 h7 h8]
  omega

theorem liveNeighbours_eq_sum {g : Grid} (hg : Binary g) (i j : Int) :
    (liveNeighbours g i j : Int) = neighbourSum g i j := by
  rw [neighbourSum_eq]
  have ind : ∀ a b : Int, (if g.cell a b = 1 then 1 else 0 : Int) = g.cell a b := by
    intro a b
    rcases Grid.cell_binary hg a b with h | h <;> simp [h]
  simp only [liveNeighbours, adjacent, List.countP_cons, List.countP_nil, Grid.read_one_iff,
    decide_eq_true_eq]
  push_cast
  simp only [ind]
  ring

/-- On a binary array the value stored by the source is Conway's rule. -/
theorem nextCell_binary {g : Grid} (hg : Binary g) (i j : Int) :
    nextCell g i j =
      if (g.cell i j = 1 ∧ (liveNeighbours g i j = 2 ∨ liveNeighbours g i j = 3)) ∨
          (g.cell i j = 0 ∧ liveNeighbours g i j = 3) then 1 else 0 := by
  have hL := liveNeighbours_eq_sum hg i j
  have hN := neighbors_eq_sum hg i j
  have hc := Grid.cell_binary hg i j
  have hc' := Grid.cell_bounds hg i j
  have hL0 : (0 : Int) ≤ liveNeighbours g i j := Int.natCast_nonneg _
  unfold nextCell
  rw [hN, ← hL]
  have hL8 : (liveNeighbours g i j : Int) ≤ 8 := by
    rw [hL, neighbourSum_eq]
    have h1 := Grid.cell_bounds hg (i + 1) (j + 1)
    have h2 := Grid.cell_bounds hg (i + 1) j
    have h3 := Grid.cell_bounds hg (i + 1) (j - 1)
    have h4 := Grid.cell_bounds hg i (j - 1)
    have h5 := Grid.cell_bounds hg i (j + 1)
    have h6 := Grid.cell_bounds hg (i - 1) (j - 1)
    have h7 := Grid.cell_bounds hg (i - 1) j
    have h8 := Grid.cell_bounds hg (i - 1) (j + 1)
    omega
  have e : ((liveNeighbours g i j : Int) = 3 ∨
      add32 (g.cell i j) (liveNeighbours g i j : Int) = 3) ↔
      ((g.cell i j = 1 ∧ (liveNeighbours g i j = 2 ∨ liveNeighbours g i j = 3)) ∨
          (g.cell i j = 0 ∧ liveNeighbours g i j = 3)) := by
    rw [add32_small (by omega) (by omega)]
    omega
  simp only [e]

/-- With exact sums in place of the 32-bit ones. -/
theorem nextCell_eq_sum {g : Grid} (hg : Binary g) (i j : Int) :
    nextCell g i j =
      if neighbourSum g i j = 3 ∨ g.cell i j + neighbourSum g i j = 3 then 1 else 0 := by
  have hN := neighbors_eq_sum hg i j
  have hc' := Grid.cell_bounds hg i j
  have hL := liveNeighbours_eq_sum hg i j
  have hL0 : (0 : Int) ≤ liveNeighbours g i j := Int.natCast_nonneg _
  have hS : neighbourSum g i j ≤ 8 := by
    rw [neighbourSum_eq]
    have h1 := Grid.cell_bounds hg (i + 1) (j + 1)
    have h2 := Grid.cell_bounds hg (i + 1) j
    have h3 := Grid.cell_bounds hg (i + 1) (j - 1)
    have h4 := Grid.cell_bounds hg i (j - 1)
    have h5 := Grid.cell_bounds hg i (j + 1)
    have h6 := Grid.cell_bounds hg (i - 1) (j - 1)
    have h7 := Grid.cell_bounds hg (i - 1) j
    have h8 := Grid.cell_bounds hg (i - 1) (j + 1)
    omega
  unfold nextCell
  rw [hN, add32_small (by omega) (by omega)]

/-! ## The step loop and the single-grid transition function -/

theorem tabulate_read (n : Nat) (f : Int → Int → Int) (i j : Int) :
    (tabulate n f).read i j =
      if 0 ≤ i ∧ i < n ∧ 0 ≤ j ∧ j < n then some (f i j) else none := by
  unfold Grid.read tabulate
  by_cases h : 0 ≤ i ∧ i < n ∧ 0 ≤ j ∧ j < n
  · obtain ⟨h1, h2, h3, h4⟩ := h
    have hi : i.toNat < n := by omega
    have hj : j.toNat < n := by omega
    have ei : ((i.toNat : Nat) : Int) = i := by omega
    have ej : ((j.toNat : Nat) : Int) = j := by omega
    simp [h1, h2, h3, h4, List.getElem?_map, List.getElem?_range hi, List.getElem?_range hj,
      ei, ej]
  · rw [if_neg h]
    by_cases h0 : 0 ≤ i ∧ 0 ≤ j
    · rw [if_pos h0]
      by_cases hi : i.toNat < n
      · have hj : ¬ j.toNat < n := by omega
        simp [List.getElem?_map, List.getElem?_range hi,
          List.getElem?_eq_none (l := List.range n) (by simpa using Nat.le_of_not_lt hj)]
      · simp [List.getElem?_map,
          List.getElem?_eq_none (l := List.range n) (by simpa using Nat.le_of_not_lt hi)]
    · rw [if_neg h0]

theorem tabulate_square (n : Nat) (f : Int → Int → Int) : Square (n : Int) (tabulate n f) := by
  unfold Square tabulate
  refine ⟨by simp, ?_⟩
  intro row hrow
  simp only [List.mem_map] at hrow
  obtain ⟨i, -, rfl⟩ := hrow
  simp

theorem tabulate_congr (n : Nat) (f g : Int → Int → Int)
    (h : ∀ i j : Int, 0 ≤ i → i < n → 0 ≤ j → j < n → f i j = g i j) :
    tabulate n f = tabulate n g := by
  apply Grid.square_ext (tabulate_square n f) (tabulate_square n g)
  intro i j h1 h2 h3 h4
  rw [tabulate_read, tabulate_read, if_pos ⟨h1, h2, h3, h4⟩, if_pos ⟨h1, h2, h3, h4⟩,
    h i j h1 h2 h3 h4]

theorem tabulate_cell (n : Nat) (f : Int → Int → Int) (i j : Int) :
    (tabulate n f).cell i j = if 0 ≤ i ∧ i < n ∧ 0 ≤ j ∧ j < n then f i j else 0 := by
  unfold Grid.cell
  rw [tabulate_read]
  split <;> rfl

/-- A square array is the table of its cells. -/
theorem Grid.eq_tabulate {size : Int} {g : Grid} (hg : Square size g) :
    g = tabulate size.toNat fun i j => g.cell i j := by
  have h0 : (0 : Int) ≤ size := by have := hg.1; omega
  have hs : ((size.toNat : Nat) : Int) = size := by omega
  apply Grid.square_ext hg (hs ▸ tabulate_square size.toNat _)
  intro i j h1 h2 h3 h4
  rw [tabulate_read, if_pos ⟨h1, by omega, h3, by omega⟩]
  exact Grid.read_eq_cell hg h1 h2 h3 h4

theorem nextGen_square {size : Int} (h0 : 0 ≤ size) (g : Grid) : Square size (nextGen size g) := by
  have hs : ((size.toNat : Nat) : Int) = size := by omega
  unfold nextGen
  exact hs ▸ tabulate_square size.toNat _

theorem nextGen_read {size : Int} (g : Grid) (i j : Int) :
    (nextGen size g).read i j =
      if 0 ≤ i ∧ i < size ∧ 0 ≤ j ∧ j < size then
        some (if interior size i j then nextCell g i j else g.cell i j)
      else none := by
  unfold nextGen
  rw [tabulate_read]
  have e : (0 ≤ i ∧ i < ((size.toNat : Nat) : Int) ∧ 0 ≤ j ∧ j < ((size.toNat : Nat) : Int)) ↔
      (0 ≤ i ∧ i < size ∧ 0 ≤ j ∧ j < size) := by omega
  simp only [e]

theorem swapHandles_deref (m : Machine) (b : Buf) : (swapHandles m).deref b = m.deref b := by
  cases b <;> rfl

theorem stepLoop_zero (size : Int) (m : Machine) : stepLoop size 0 m = some m := by
  simp [stepLoop, forRange, forFrom]

theorem stepLoop_succ (size : Int) (n : Nat) (m : Machine) :
    stepLoop size ((n + 1 : Nat) : Int) m =
      match stepBody size m with
      | some m1 => stepLoop size (n : Int) m1
      | none => none := by
  have e1 : (((n + 1 : Nat) : Int) - 0).toNat = n + 1 := by omega
  have e2 : ((n : Int) - 0).toNat = n := by omega
  unfold stepLoop forRange
  rw [e1, e2]
  simp only [forFrom]
  cases stepBody size m with
  | none => rfl
  | some m1 => exact forFrom_const (stepBody size) n (0 + 1) 0 m1

/-- The loop over `t` composes: `a + b` rounds are `a` rounds, then `b` rounds. -/
theorem stepLoop_add (size : Int) (a b : Nat) (m : Machine) :
    stepLoop size ((a + b : Nat) : Int) m =
      match stepLoop size (a : Int) m with
      | some m1 => stepLoop size (b : Int) m1
      | none => none := by
  induction a generalizing m with
  | zero =>
    have : stepLoop size ((0 : Nat) : Int) m = some m := stepLoop_zero size m
    rw [this]
    simp
  | succ a ih =>
    have e : a + 1 + b = (a + b) + 1 := by omega
    rw [e, stepLoop_succ, stepLoop_succ]
    cases stepBody size m with
    | none => rfl
    | some m1 => exact ih m1

/-- One round of the loop over `t` on two distinct `size × size` arrays. -/
theorem stepBody_spec {size : Int} {m : Machine} (hne : m.current ≠ m.previous)
    (hc : Square size (m.deref m.current)) (hp : Square size (m.deref m.previous)) :
    ∃ m', stepBody size m = some m' ∧
      m'.current = m.previous ∧ m'.previous = m.current ∧
      m'.deref m.previous = m.deref m.previous ∧
      Square size (m'.deref m.current) ∧
      ∀ a b, (m'.deref m.current).read a b =
        if interior size a b then some (nextCell (m.deref m.previous) a b)
        else (m.deref m.current).read a b := by
  obtain ⟨m1, hrun, h1, h2, h3, h4, h5⟩ := step_spec hne hc hp
  refine ⟨swapHandles m1, ?_, ?_, ?_, ?_, ?_, ?_⟩
  · simp [stepBody, hrun]
  · show m1.previous = m.previous
    exact h2
  · show m1.current = m.current
    exact h1
  · rw [swapHandles_deref]; exact h3
  · rw [swapHandles_deref]; exact h4
  · intro a b; rw [swapHandles_deref]; exact h5 a b

/-- When the two arrays agree on the border, the array written by one round
is `nextGen` of the array read. -/
theorem stepBody_nextGen {size : Int} {m : Machine} (hne : m.current ≠ m.previous)
    (hc : Square size (m.deref m.current)) (hp : Square size (m.deref m.previous))
    (hb : ∀ i j, border size i j →
      (m.deref m.current).read i j = (m.deref m.previous).read i j) :
    ∃ m', stepBody size m = some m' ∧
      m'.current = m.previous ∧ m'.previous = m.current ∧
      m'.deref m.previous = m.deref m.previous ∧
      m'.deref m.current = nextGen size (m.deref m.previous) := by
  obtain ⟨m', hrun, h1, h2, h3, h4, h5⟩ := stepBody_spec hne hc hp
  refine ⟨m', hrun, h1, h2, h3, ?_⟩
  have h0 : (0 : Int) ≤ size := by have := hp.1; omega
  apply Grid.square_ext h4 (nextGen_square h0 _)
  intro i j hi0 hi hj0 hj
  have hin : 0 ≤ i ∧ i < size ∧ 0 ≤ j ∧ j < size := ⟨hi0, hi, hj0, hj⟩
  rw [h5 i j, nextGen_read]
  simp only [hin, and_self, if_true]
  by_cases hint : interior size i j
  · rw [if_pos hint, if_pos hint]
  · rw [if_neg hint, if_neg hint]
    have hbd : border size i j := by
      unfold border; unfold interior at hint; omega
    rw [hb i j hbd]
    exact Grid.read_eq_cell hp hi0 hi hj0 hj

/-- The border of `nextGen` is the border of its argument. -/
theorem nextGen_border {size : Int} {g : Grid} (hg : Square size g) (i j : Int)
    (hb : border size i j) : (nextGen size g).read i j = g.read i j := by
  have hb' := hb
  unfold border at hb'
  have hint : ¬ interior size i j := by unfold interior; omega
  rw [nextGen_read, if_pos ⟨hb'.1, hb'.2.1, hb'.2.2.1, hb'.2.2.2.1⟩, if_neg hint]
  exact (Grid.read_eq_cell hg hb'.1 hb'.2.1 hb'.2.2.1 hb'.2.2.2.1).symm

/-- The sequential step loop on two distinct `size × size` arrays that agree
on the border: it succeeds, and `previous` ends on the `n`-fold `nextGen` of
the initial `previous` array. -/
theorem stepLoop_spec {size : Int} (n : Nat) : ∀ {m : Machine}, m.current ≠ m.previous →
    Square size (m.deref m.current) → Square size (m.deref m.previous) →
    (∀ i j, border size i j →
      (m.deref m.current).read i j = (m.deref m.previous).read i j) →
    ∃ m', stepLoop size (n : Int) m = some m' ∧
      m'.current ≠ m'.previous ∧
      Square size (m'.deref m'.current) ∧ Square size (m'.deref m'.previous) ∧
      (∀ i j, border size i j →
        (m'.deref m'.current).read i j = (m'.deref m'.previous).read i j) ∧
      m'.deref m'.previous = (nextGen size)^[n] (m.deref m.previous) := by
  induction n with
  | zero =>
    intro m hne hc hp hb
    exact ⟨m, stepLoop_zero size m, hne, hc, hp, hb, rfl⟩
  | succ n ih =>
    intro m hne hc hp hb
    obtain ⟨m1, hrun, h1, h2, h3, h4⟩ := stepBody_nextGen hne hc hp hb
    have h0 : (0 : Int) ≤ size := by have := hp.1; omega
    have hne1 : m1.current ≠ m1.previous := by rw [h1, h2]; exact Ne.symm hne
    have hc1 : Square size (m1.deref m1.current) := by rw [h1, h3]; exact hp
    have hp1 : Square size (m1.deref m1.previous) := by
      rw [h2, h4]; exact nextGen_square h0 _
    have hb1 : ∀ i j, border size i j →
        (m1.deref m1.current).read i j = (m1.deref m1.previous).read i j := by
      intro i j hij
      rw [h1, h2, h3, h4, nextGen_border hp i j hij]
    obtain ⟨m', hrun', r1, r2, r3, r4, r5⟩ := ih hne1 hc1 hp1 hb1
    refine ⟨m', ?_, r1, r2, r3, r4, ?_⟩
    · rw [stepLoop_succ, hrun]; exact hrun'
    · rw [r5, h2, h4, Function.iterate_succ_apply]

/-! ## The rule in the words of the specification -/

theorem nextCell_eq_specCell {g : Grid} (hg : Binary g) (i j : Int) :
    nextCell g i j = specCell g i j := by
  have hc := Grid.cell_bounds hg i j
  have e : (neighbourSum g i j = 3 ∨ g.cell i j + neighbourSum g i j = 3) ↔
      (neighbourSum g i j = 3 ∨ (g.cell i j = 1 ∧ neighbourSum g i j = 2)) := by omega
  rw [nextCell_eq_sum hg, specCell]
  simp only [e]

theorem nextGen_eq_specGen {g : Grid} (hg : Binary g) (size : Int) :
    nextGen size g = specGen size g := by
  unfold nextGen specGen
  apply tabulate_congr
  intro i j _ _ _ _
  rw [nextCell_eq_specCell hg]

theorem nextCell_binary_value (g : Grid) (i j : Int) :
    nextCell g i j = 0 ∨ nextCell g i j = 1 := by
  unfold nextCell
  split
  · exact Or.inr rfl
  · exact Or.inl rfl

theorem nextGen_binary {g : Grid} (hg : Binary g) (size : Int) : Binary (nextGen size g) := by
  rw [binary_iff_read]
  intro i j v hv
  rw [nextGen_read] at hv
  split at hv
  · injection hv with hv
    rw [← hv]
    split
    · exact nextCell_binary_value g i j
    · exact Grid.cell_binary hg i j
  · cases hv

/-- On binary grids the iterates of the two transition functions coincide. -/
theorem nextGen_iterate_eq_specGen {g : Grid} (hg : Binary g) (size : Int) (n : Nat) :
    (nextGen size)^[n] g = (specGen size)^[n] g ∧ Binary ((nextGen size)^[n] g) := by
  induction n with
  | zero => exact ⟨rfl, hg⟩
  | succ n ih =>
    rw [Function.iterate_succ_apply', Function.iterate_succ_apply', ← ih.1]
    exact ⟨nextGen_eq_specGen ih.2 size, nextGen_binary ih.2 size⟩

/-! ## What a run leaves unchanged -/

theorem Buf.eq_or_eq_of_ne {x y : Buf} (h : x ≠ y) (b : Buf) : b = x ∨ b = y := by
  cases b <;> cases x <;> cases y <;> simp_all

/-- What one execution of the loop body changes, whatever the arrays. -/
theorem cellUpdate_frame {i j : Int} {m m' : Machine} (h : cellUpdate i j m = some m') :
    m'.current = m.current ∧ m'.previous = m.previous ∧
      (∀ b, b ≠ m.current → m'.deref b = m.deref b) ∧
      ∃ v, (v = 0 ∨ v = 1) ∧ ∀ a c, (m'.deref m.current).read a c =
        if a = i ∧ c = j then some v else (m.deref m.current).read a c := by
  obtain ⟨v, g', hv, hw, rfl⟩ := cellUpdate_some h
  refine ⟨Machine.store_current _ _ _, Machine.store_previous _ _ _, ?_, v, hv, ?_⟩
  · intro b hb
    rw [Machine.deref_store, if_neg hb]
  · intro a c
    rw [Machine.deref_store, if_pos rfl]
    exact Grid.read_write hw a c

theorem FrameOf.cellUpdate {size i j : Int} {m t t' : Machine} (ht : FrameOf size m t)
    (hij : interior size i j) (h : cellUpdate i j t = some t') : FrameOf size m t' := by
  obtain ⟨t1, t2, t3, t4⟩ := ht
  obtain ⟨f1, f2, f3, v, hv, f4⟩ := cellUpdate_frame h
  refine ⟨f1.trans t1, f2.trans t2, ?_, ?_⟩
  · intro b hb
    rw [f3 b (by rw [t1]; exact hb), t3 b hb]
  · intro a c
    rw [t1] at f4
    rw [f4 a c]
    by_cases hac : a = i ∧ c = j
    · rw [if_pos hac]
      right
      rw [hac.1, hac.2]
      refine ⟨hij, ?_⟩
      rcases hv with hv | hv
      · left; rw [hv]
      · right; rw [hv]
    · rw [if_neg hac]
      exact t4 a c

/-- One generation, whatever the arrays: when it returns, only interior
cells of the array `current` points to were written, each with 0 or 1. -/
theorem step_frame {size : Int} {m m' : Machine} (h : step size m = some m') :
    FrameOf size m m' := by
  have h0 : FrameOf size m m := ⟨rfl, rfl, fun _ _ => rfl, fun _ _ => Or.inl rfl⟩
  refine forRange_inv 1 (size - 1) _ (FrameOf size m) m m' h0 ?_ h
  intro i t t' hi1 hi2 ht hrow
  refine forRange_inv 1 (size - 1) _ (FrameOf size m) t t' ht ?_ hrow
  intro j u u' hj1 hj2 hu hcell
  exact hu.cellUpdate ⟨hi1, by omega, hj1, by omega⟩ hcell

/-- One generation leaves every cell that is not interior as it was, in both arrays. -/
theorem step_frame_read {size : Int} {m m' : Machine} (h : step size m = some m')
    (b : Buf) (i j : Int) (hij : ¬ interior size i j) :
    (m'.deref b).read i j = (m.deref b).read i j := by
  obtain ⟨-, -, f3, f4⟩ := step_frame h
  by_cases hb : b = m.current
  · subst hb
    rcases f4 i j with h1 | h1
    · exact h1
    · exact absurd h1.1 hij
  · rw [f3 b hb]

/-- The step loop leaves every cell that is not interior as it was, in both arrays. -/
theorem stepLoop_frame {size : Int} (n : Nat) : ∀ {m m' : Machine},
    stepLoop size (n : Int) m = some m' → ∀ (b : Buf) (i j : Int), ¬ interior size i j →
      (m'.deref b).read i j = (m.deref b).read i j := by
  induction n with
  | zero =>
    intro m m' h b i j _
    rw [show ((0 : Nat) : Int) = 0 from rfl, stepLoop_zero] at h
    cases h
    rfl
  | succ n ih =>
    intro m m' h b i j hij
    rw [stepLoop_succ] at h
    cases hs : step size m with
    | none => simp [stepBody, hs] at h
    | some m1 =>
      simp only [stepBody, hs] at h
      rw [ih h b i j hij, swapHandles_deref]
      exact step_frame_read hs b i j hij

/-- The step loop on two distinct `size × size` arrays succeeds. -/
theorem stepLoop_total {size : Int} (n : Nat) : ∀ {m : Machine}, m.current ≠ m.previous →
    Square size (m.deref m.current) → Square size (m.deref m.previous) →
    ∃ m', stepLoop size (n : Int) m = some m' ∧ m'.current ≠ m'.previous ∧
      Square size (m'.deref m'.current) ∧ Square size (m'.deref m'.previous) := by
  induction n with
  | zero =>
    intro m hne hc hp
    exact ⟨m, stepLoop_zero size m, hne, hc, hp⟩
  | succ n ih =>
    intro m hne hc hp
    obtain ⟨m1, hrun, h1, h2, h3, h4, -⟩ := stepBody_spec hne hc hp
    obtain ⟨m', hrun', r⟩ := ih (m := m1) (by rw [h1, h2]; exact Ne.symm hne)
      (by rw [h1, h3]; exact hp) (by rw [h2]; exact h4)
    exact ⟨m', by rw [stepLoop_succ, hrun]; exact hrun', r⟩

/-! ## Blinker, block and the dead grid -/

/-- The rule of the source on a table of zeros and ones that vanishes outside the grid. -/
theorem nextGen_tabulate (size : Int) (P : Int → Int → Int)
    (hbin : ∀ a b, P a b = 0 ∨ P a b = 1)
    (hout : ∀ a b, ¬ (0 ≤ a ∧ a < size ∧ 0 ≤ b ∧ b < size) → P a b = 0) :
    nextGen size (tabulate size.toNat P) =
      tabulate size.toNat fun i j =>
        if interior size i j then
          (if P (i - 1) (j - 1) + P (i - 1) j + P (i - 1) (j + 1) + P i (j - 1) +
                P i (j + 1) + P (i + 1) (j - 1) + P (i + 1) j + P (i + 1) (j + 1) = 3 ∨
              P i j + (P (i - 1) (j - 1) + P (i - 1) j + P (i - 1) (j + 1) + P i (j - 1) +
                P i (j + 1) + P (i + 1) (j - 1) + P (i + 1) j + P (i + 1) (j + 1)) = 3
            then 1 else 0)
        else P i j := by
  have hcell : ∀ a b, (tabulate size.toNat P).cell a b = P a b := by
    intro a b
    rw [tabulate_cell]
    by_cases h : 0 ≤ a ∧ a < size ∧ 0 ≤ b ∧ b < size
    · rw [if_pos (by omega)]
    · rw [if_neg (by omega), hout a b h]
  have hB : Binary (tabulate size.toNat P) := by
    rw [binary_iff_read]
    intro i j v hv
    rw [tabulate_read] at hv
    split at hv
    · injection hv with hv
      rw [← hv]
      exact hbin i j
    · cases hv
  unfold nextGen
  apply tabulate_congr
  intro i j _ _ _ _
  rw [nextCell_eq_sum hB, neighbourSum_eq]
  simp only [hcell]

theorem blinkerH_step (size r c : Int) (hr1 : 2 ≤ r) (hr2 : r ≤ size - 3)
    (hc1 : 2 ≤ c) (hc2 : c ≤ size - 3) :
    nextGen size (blinkerH size r c) = blinkerV size r c := by
  unfold blinkerH blinkerV
  rw [nextGen_tabulate size _ (fun a b => by split <;> simp) (fun a b h => by
    have : ¬ (a = r ∧ (b = c - 1 ∨ b = c ∨ b = c + 1)) := by omega
    rw [if_neg this])]
  apply tabulate_congr
  intro i j hi0 hi hj0 hj
  have hsz : ((size.toNat : Nat) : Int) = size := by omega
  rw [hsz] at hi hj
  unfold interior
  have hi' : i ≤ r - 2 ∨ i = r - 1 ∨ i = r ∨ i = r + 1 ∨ r + 2 ≤ i := by omega
  have hj' : j ≤ c - 3 ∨ j = c - 2 ∨ j = c - 1 ∨ j = c ∨ j = c + 1 ∨ j = c + 2 ∨ c + 3 ≤ j := by
    omega
  rcases hi' with h1 | h1 | h1 | h1 | h1 <;>
    rcases hj' with h2 | h2 | h2 | h2 | h2 | h2 | h2 <;>
    simp (disch := omega) only [if_pos, if_neg, ite_self]

theorem blinkerV_step (size r c : Int) (hr1 : 2 ≤ r) (hr2 : r ≤ size - 3)
    (hc1 : 2 ≤ c) (hc2 : c ≤ size - 3) :
    nextGen size (blinkerV size r c) = blinkerH size r c := by
  unfold blinkerH blinkerV
  rw [nextGen_tabulate size _ (fun a b => by split <;> simp) (fun a b h => by
    have : ¬ ((a = r - 1 ∨ a = r ∨ a = r + 1) ∧ b = c) := by omega
    rw [if_neg this])]
  apply tabulate_congr
  intro i j hi0 hi hj0 hj
  have hsz : ((size.toNat : Nat) : Int) = size := by omega
  rw [hsz] at hi hj
  unfold interior
  have hi' : i ≤ r - 3 ∨ i = r - 2 ∨ i = r - 1 ∨ i = r ∨ i = r + 1 ∨ i = r + 2 ∨ r + 3 ≤ i := by
    omega
  have hj' : j ≤ c - 2 ∨ j = c - 1 ∨ j = c ∨ j = c + 1 ∨ c + 2 ≤ j := by omega
  rcases hi' with h1 | h1 | h1 | h1 | h1 | h1 | h1 <;>
    rcases hj' with h2 | h2 | h2 | h2 | h2 <;>
    simp (disch := omega) only [if_pos, if_neg, ite_self]

theorem blinker_iterate (size r c : Int) (hr1 : 2 ≤ r) (hr2 : r ≤ size - 3)
    (hc1 : 2 ≤ c) (hc2 : c ≤ size - 3) (n : Nat) :
    (nextGen size)^[n] (blinkerH size r c) =
      if n % 2 = 1 then blinkerV size r c else blinkerH size r c := by
  induction n with
  | zero => rfl
  | succ n ih =>
    rw [Function.iterate_succ_apply', ih]
    by_cases h : n % 2 = 1
    · have h' : ¬ (n + 1) % 2 = 1 := by omega
      rw [if_pos h, if_neg h', blinkerV_step size r c hr1 hr2 hc1 hc2]
    · have h' : (n + 1) % 2 = 1 := by omega
      rw [if_neg h, if_pos h', blinkerH_step size r c hr1 hr2 hc1 hc2]

theorem blockGrid_step (size r c : Int) (hr1 : 1 ≤ r) (hr2 : r ≤ size - 3)
    (hc1 : 1 ≤ c) (hc2 : c ≤ size - 3) :
    nextGen size (blockGrid size r c) = blockGrid size r c := by
  unfold blockGrid
  rw [nextGen_tabulate size _ (fun a b => by split <;> simp) (fun a b h => by
    have : ¬ ((a = r ∨ a = r + 1) ∧ (b = c ∨ b = c + 1)) := by omega
    rw [if_neg this])]
  apply tabulate_congr
  intro i j hi0 hi hj0 hj
  have hsz : ((size.toNat : Nat) : Int) = size := by omega
  rw [hsz] at hi hj
  unfold interior
  have hi' : i ≤ r - 2 ∨ i = r - 1 ∨ i = r ∨ i = r + 1 ∨ i = r + 2 ∨ r + 3 ≤ i := by omega
  have hj' : j ≤ c - 2 ∨ j = c - 1 ∨ j = c ∨ j = c + 1 ∨ j = c + 2 ∨ c + 3 ≤ j := by omega
  rcases hi' with h1 | h1 | h1 | h1 | h1 | h1 <;>
    rcases hj' with h2 | h2 | h2 | h2 | h2 | h2 <;>
    simp (disch := omega) only [if_pos, if_neg, ite_self]

theorem deadGrid_step (size : Int) : nextGen size (deadGrid size) = deadGrid size := by
  unfold deadGrid
  rw [nextGen_tabulate size _ (fun _ _ => Or.inl rfl) (fun _ _ _ => rfl)]
  apply tabulate_congr
  intro i j _ _ _ _
  simp

theorem iterate_fixed {g : Grid} {f : Grid → Grid} (h : f g = g) (n : Nat) : f^[n] g = g := by
  induction n with
  | zero => rfl
  | succ n ih => rw [Function.iterate_succ_apply', ih, h]

theorem blinkerH_square {size : Int} (h : 0 ≤ size) (r c : Int) :
    Square size (blinkerH size r c) := by
  have hs : ((size.toNat : Nat) : Int) = size := by omega
  unfold blinkerH
  exact hs ▸ tabulate_square size.toNat _

theorem blockGrid_square {size : Int} (h : 0 ≤ size) (r c : Int) :
    Square size (blockGrid size r c) := by
  have hs : ((size.toNat : Nat) : Int) = size := by omega
  unfold blockGrid
  exact hs ▸ tabulate_square size.toNat _

theorem deadGrid_square {size : Int} (h : 0 ≤ size) : Square size (deadGrid size) := by
  have hs : ((size.toNat : Nat) : Int) = size := by omega
  unfold deadGrid
  exact hs ▸ tabulate_square size.toNat _

/-- The step loop started with the same `size × size` grid `g` in both buffers. -/
theorem stepLoop_same {size : Int} (n : Nat) {m : Machine} {g : Grid}
    (hne : m.current ≠ m.previous) (hg : Square size g)
    (hA : m.memA = g) (hB : m.memB = g) :
    ∃ m', stepLoop size (n : Int) m = some m' ∧
      m'.deref m'.previous = (nextGen size)^[n] g := by
  have hd : ∀ b, m.deref b = g := by
    intro b
    cases b
    · exact hA
    · exact hB
  obtain ⟨m', hrun, -, -, -, -, h⟩ := @stepLoop_spec size n m hne
    (by rw [hd]; exact hg) (by rw [hd]; exact hg) (fun i j _ => by rw [hd, hd])
  exact ⟨m', hrun, by rw [h, hd]⟩

/-! ## Allocation, seeding and binary cells -/

/-- The loop over `j` of `allocate_array` for one row `i` of the array. -/
theorem zeroRow_spec {size i : Int} {g0 : Grid} (hg : Square size g0)
    (hi0 : 0 ≤ i) (hi : i < size) :
    ∃ g, forRange 0 size (fun j g2 => g2.write i j 0) g0 = some g ∧ Square size g ∧
      ∀ a b, g.read a b =
        if a = i ∧ 0 ≤ b ∧ b < size then some 0 else g0.read a b := by
  obtain ⟨g, hrun, h1, h2⟩ := forRange_total 0 size (fun j (g2 : Grid) => g2.write i j 0)
    (fun j g => Square size g ∧ ∀ a b, g.read a b =
      if a = i ∧ 0 ≤ b ∧ b < j then some 0 else g0.read a b)
    g0 ⟨hg, fun a b => by
      have : ¬ (a = i ∧ 0 ≤ b ∧ b < 0) := by omega
      rw [if_neg this]⟩
    (by
      intro k t hk0 hk ⟨t1, t2⟩
      obtain ⟨g', hg'⟩ := Grid.write_of_square t1 hi0 hi hk0 hk 0
      refine ⟨g', hg', Grid.write_square t1 hg', ?_⟩
      intro a b
      rw [Grid.read_write hg' a b, t2 a b]
      by_cases hab : a = i ∧ b = k
      · have h' : a = i ∧ 0 ≤ b ∧ b < k + 1 := by omega
        rw [if_pos hab, if_pos h']
      · have e : (a = i ∧ 0 ≤ b ∧ b < k + 1) ↔ (a = i ∧ 0 ≤ b ∧ b < k) := by omega
        rw [if_neg hab]
        simp only [e])
  refine ⟨g, hrun, h1, ?_⟩
  intro a b
  rw [h2 a b]
  have e : (a = i ∧ 0 ≤ b ∧ b < max 0 size) ↔ (a = i ∧ 0 ≤ b ∧ b < size) := by omega
  simp only [e]

theorem mallocGrid_square {size : Int} (h0 : 0 ≤ size) (fresh : Int → Int → Int) :
    Square size (mallocGrid fresh size) := by
  have hs : ((size.toNat : Nat) : Int) = size := by omega
  exact hs ▸ tabulate_square size.toNat fresh

/-- `allocate_array` returns, whatever the allocator left in the block, and
the array it returns is the `size × size` array of zeros (the empty array for
`size ≤ 0`). -/
theorem allocate_array_eq (fresh : Int → Int → Int) (size : Int) :
    allocate_array fresh size = some (deadGrid size) := by
  by_cases hneg : size ≤ 0
  · have hz : size.toNat = 0 := by omega
    unfold allocate_array
    rw [forRange_empty 0 size _ _ hneg]
    simp [mallocGrid, deadGrid, tabulate, hz]
  · have h0 : (0 : Int) ≤ size := by omega
    obtain ⟨g, hrun, h1, h2⟩ := forRange_total 0 size
      (fun i (g1 : Grid) => forRange 0 size (fun j g2 => g2.write i j 0) g1)
      (fun i g => Square size g ∧ ∀ a b, g.read a b =
        if 0 ≤ a ∧ a < i ∧ 0 ≤ b ∧ b < size then some 0
        else (mallocGrid fresh size).read a b)
      (mallocGrid fresh size) ⟨mallocGrid_square h0 fresh, fun a b => by
        have : ¬ (0 ≤ a ∧ a < 0 ∧ 0 ≤ b ∧ b < size) := by omega
        rw [if_neg this]⟩
      (by
        intro k t hk0 hk ⟨t1, t2⟩
        obtain ⟨g', hrun', r1, r2⟩ := zeroRow_spec t1 hk0 hk
        refine ⟨g', hrun', r1, ?_⟩
        intro a b
        rw [r2 a b, t2 a b]
        by_cases c1 : a = k ∧ 0 ≤ b ∧ b < size
        · have c3 : 0 ≤ a ∧ a < k + 1 ∧ 0 ≤ b ∧ b < size := by omega
          rw [if_pos c1, if_pos c3]
        · by_cases c2 : 0 ≤ a ∧ a < k ∧ 0 ≤ b ∧ b < size
          · have c3 : 0 ≤ a ∧ a < k + 1 ∧ 0 ≤ b ∧ b < size := by omega
            rw [if_neg c1, if_pos c2, if_pos c3]
          · have c3 : ¬ (0 ≤ a ∧ a < k + 1 ∧ 0 ≤ b ∧ b < size) := by omega
            rw [if_neg c1, if_neg c2, if_neg c3])
    unfold allocate_array
    rw [hrun]
    congr 1
    apply Grid.square_ext h1 (deadGrid_square h0)
    intro i j hi0 hi hj0 hj
    have c : 0 ≤ i ∧ i < max 0 size ∧ 0 ≤ j ∧ j < size := by omega
    rw [h2 i j, if_pos c]
    unfold deadGrid
    rw [tabulate_read, if_pos ⟨hi0, by omega, hj0, by omega⟩]

theorem deadGrid_read {size i j v : Int} (h : (deadGrid size).read i j = some v) : v = 0 := by
  unfold deadGrid at h
  rw [tabulate_read] at h
  split at h
  · injection h with h; exact h.symm
  · cases h

theorem deadGrid_binary (size : Int) : Binary (deadGrid size) := by
  rw [binary_iff_read]
  intro i j v h
  exact Or.inl (deadGrid_read h)

/-- One round of the loop of `initialize_random` stores 1 in one cell of each array. -/
theorem seedCell_frame {size r : Int} {arrays arrays' : Grid × Grid}
    (h : seedCell size r arrays = some arrays') :
    ∃ row col, arrays.1.write row col 1 = some arrays'.1 ∧
      arrays.2.write row col 1 = some arrays'.2 := by
  unfold seedCell at h
  simp only at h
  split at h
  · cases h
  · split at h
    · cases h
    · simp only [Option.bind_eq_bind, Option.bind_eq_some] at h
      obtain ⟨a1, h1, a2, h2, h3⟩ := h
      injection h3 with h3
      subst h3
      exact ⟨_, _, h1, h2⟩

/-- `initialize_random` only writes the value 1: each cell of each array
holds its old value or 1 afterwards. -/
theorem initialize_random_frame {array1 array2 : Grid} {size : Int} {rand : Nat → Int}
    {r : Grid × Grid} (h : initialize_random array1 array2 size rand = some r) :
    ∀ i j, (r.1.read i j = array1.read i j ∨ r.1.read i j = some 1) ∧
      (r.2.read i j = array2.read i j ∨ r.2.read i j = some 1) := by
  refine forRange_inv 0 _ _
    (fun t : Grid × Grid => ∀ i j,
      (t.1.read i j = array1.read i j ∨ t.1.read i j = some 1) ∧
        (t.2.read i j = array2.read i j ∨ t.2.read i j = some 1))
    (array1, array2) r (fun _ _ => ⟨Or.inl rfl, Or.inl rfl⟩) ?_ h
  intro k t t' _ _ ht hseed i j
  obtain ⟨row, col, w1, w2⟩ := seedCell_frame hseed
  rw [Grid.read_write w1 i j, Grid.read_write w2 i j]
  by_cases hij : i = row ∧ j = col
  · rw [if_pos hij, if_pos hij]
    exact ⟨Or.inr rfl, Or.inr rfl⟩
  · rw [if_neg hij, if_neg hij]
    exact ht i j

theorem binary_of_read_or {g g' : Grid} (hg : Binary g)
    (h : ∀ i j, g'.read i j = g.read i j ∨ g'.read i j = some 0 ∨ g'.read i j = some 1) :
    Binary g' := by
  rw [binary_iff_read] at hg ⊢
  intro i j v hv
  rcases h i j with h1 | h1 | h1
  · exact hg i j v (h1 ▸ hv)
  · rw [h1] at hv; injection hv with hv; exact Or.inl hv.symm
  · rw [h1] at hv; injection hv with hv; exact Or.inr hv.symm

/-- One generation keeps both arrays binary, whatever their shape. -/
theorem step_binary {size : Int} {m m' : Machine} (h : step size m = some m')
    (hb : ∀ b, Binary (m.deref b)) : ∀ b, Binary (m'.deref b) := by
  obtain ⟨-, -, f3, f4⟩ := step_frame h
  intro b
  by_cases hbc : b = m.current
  · subst hbc
    apply binary_of_read_or (hb m.current)
    intro i j
    rcases f4 i j with h1 | ⟨-, h1⟩
    · exact Or.inl h1
    · exact Or.inr h1
  · rw [f3 b hbc]; exact hb b

/-- The step loop keeps both arrays binary, whatever their shape. -/
theorem stepLoop_binary {size : Int} (n : Nat) : ∀ {m m' : Machine},
    stepLoop size (n : Int) m = some m' → (∀ b, Binary (m.deref b)) →
      ∀ b, Binary (m'.deref b) := by
  induction n with
  | zero =>
    intro m m' h hb
    rw [show ((0 : Nat) : Int) = 0 from rfl, stepLoop_zero] at h
    cases h
    exact hb
  | succ n ih =>
    intro m m' h hb
    rw [stepLoop_succ] at h
    cases hs : step size m with
    | none => simp [stepBody, hs] at h
    | some m1 =>
      simp only [stepBody, hs] at h
      refine ih h ?_
      intro b
      rw [swapHandles_deref]
      exact step_binary hs hb b

/-- The arrays `main` starts the step loop with are binary. -/
theorem setup_binary {freshA freshB : Int → Int → Int} {size : Int} {rand : Nat → Int}
    {m0 : Machine} (h : setup freshA freshB size rand = some m0) :
    ∀ b, Binary (m0.deref b) := by
  unfold setup at h
  rw [allocate_array_eq, allocate_array_eq] at h
  simp only [Option.bind_eq_bind, Option.some_bind, Option.bind_eq_some] at h
  obtain ⟨r, hr, hm⟩ := h
  injection hm with hm
  subst hm
  have hf := initialize_random_frame hr
  intro b
  cases b
  · apply binary_of_read_or (deadGrid_binary size)
    intro i j
    rcases (hf i j).2 with h1 | h1
    · exact Or.inl h1
    · exact Or.inr (Or.inr h1)
  · apply binary_of_read_or (deadGrid_binary size)
    intro i j
    rcases (hf i j).1 with h1 | h1
    · exact Or.inl h1
    · exact Or.inr (Or.inr h1)

/-! ## The arithmetic and the loop of `initialize_random` -/

theorem mul32_small {a b : Int} (h1 : 0 ≤ a * b) (h2 : a * b < 2147483648) :
    mul32 a b = a * b := by
  unfold mul32 wrap32
  omega

theorem seedDivisor_eq {size : Int} (h0 : 0 ≤ size) (hmax : size ≤ 46340) :
    seedDivisor size = (size - 2) * (size - 2) := by
  unfold seedDivisor
  apply mul32_small
  · nlinarith
  · nlinarith

theorem seedCount_eq {size : Int} (h0 : 0 ≤ size) (hmax : size ≤ 46340) :
    seedCount size = size * size / 10 := by
  unfold seedCount
  rw [mul32_small (by nlinarith) (by nlinarith)]
  exact Int.tdiv_eq_ediv (by nlinarith) (by decide)

theorem seedCount_pos_iff {size : Int} (h0 : 0 ≤ size) (hmax : size ≤ 46340) :
    1 ≤ seedCount size ↔ 4 ≤ size := by
  rw [seedCount_eq h0 hmax]
  constructor
  · intro h
    by_contra hlt
    have h3 : size ≤ 3 := by omega
    have : size * size ≤ 9 := by nlinarith
    omega
  · intro h
    have : 16 ≤ size * size := by nlinarith
    omega

theorem seedCount_small {size : Int} (h0 : 0 ≤ size) (h3 : size ≤ 3) : seedCount size = 0 := by
  rw [seedCount_eq h0 (by omega)]
  have : size * size ≤ 9 := by nlinarith
  have : 0 ≤ size * size := by nlinarith
  omega

/-- The indices computed in lines 89 and 90 are interior, and neither divisor is 0. -/
theorem seed_indices {size r : Int} (h4 : 4 ≤ size) (hmax : size ≤ 46340) (hr : 0 ≤ r) :
    0 < seedDivisor size ∧ 0 < size - 2 ∧ interior size (seedRow size r) (seedCol size r) := by
  have hs : 0 < size - 2 := by omega
  have hd : seedDivisor size = (size - 2) * (size - 2) := seedDivisor_eq (by omega) hmax
  have hdpos : 0 < (size - 2) * (size - 2) := Int.mul_pos hs hs
  have hpos : seedPosition size r = r % ((size - 2) * (size - 2)) := by
    unfold seedPosition
    rw [hd]
    exact Int.tmod_eq_emod hr (le_of_lt hdpos)
  have hp0 : 0 ≤ seedPosition size r := by
    rw [hpos]; exact Int.emod_nonneg _ (ne_of_gt hdpos)
  have hp1 : seedPosition size r < (size - 2) * (size - 2) := by
    rw [hpos]; exact Int.emod_lt_of_pos _ hdpos
  have hrow : seedRow size r = seedPosition size r % (size - 2) + 1 := by
    unfold seedRow
    rw [Int.tmod_eq_emod hp0 (le_of_lt hs)]
  have hcol : seedCol size r = seedPosition size r / (size - 2) + 1 := by
    unfold seedCol
    rw [Int.tdiv_eq_ediv hp0 (le_of_lt hs)]
  have r0 := Int.emod_nonneg (seedPosition size r) (ne_of_gt hs)
  have r1 := Int.emod_lt_of_pos (seedPosition size r) hs
  have c0 := Int.ediv_nonneg hp0 (le_of_lt hs)
  have c1 := Int.ediv_lt_of_lt_mul hs hp1
  refine ⟨by rw [hd]; exact hdpos, hs, ?_⟩
  unfold interior
  rw [hrow, hcol]
  omega

/-- The loop body of `initialize_random` in terms of the two computed indices. -/
theorem seedCell_eq (size r : Int) (arrays : Grid × Grid) :
    seedCell size r arrays =
      if seedDivisor size = 0 then none
      else if size - 2 = 0 then none
      else (arrays.1.write (seedRow size r) (seedCol size r) 1).bind fun array1 =>
        (arrays.2.write (seedRow size r) (seedCol size r) 1).bind fun array2 =>
          some (array1, array2) := rfl

theorem initialize_random_eq (array1 array2 : Grid) (size : Int) (rand : Nat → Int) :
    initialize_random array1 array2 size rand =
      forRange 0 (seedCount size)
        (fun i arrays => seedCell size (rand i.toNat) arrays) (array1, array2) := rfl

/-- When the bound of the loop is not positive `initialize_random` changes nothing. -/
theorem initialize_random_empty (array1 array2 : Grid) (size : Int) (rand : Nat → Int)
    (h : seedCount size ≤ 0) :
    initialize_random array1 array2 size rand = some (array1, array2) := by
  rw [initialize_random_eq]
  exact forRange_empty 0 (seedCount size) _ _ h

theorem count_set_one (row : List Int) (k : Nat) (hk : k < row.length) :
    row.count 1 ≤ (row.set k 1).count 1 ∧ (row.set k 1).count 1 ≤ row.count 1 + 1 ∧
      1 ≤ (row.set k 1).count 1 := by
  have hmem : (1 : Int) ∈ row.set k 1 := List.mem_set _ _ hk _
  have hpos : 0 < (row.set k 1).count 1 := List.count_pos_iff.2 hmem
  rw [List.count_set 1 1 row k hk] at hpos ⊢
  by_cases h1 : row[k] = 1
  · have hc : 0 < row.count 1 := List.count_pos_iff.2 (h1 ▸ List.getElem_mem hk)
    simp only [h1, beq_self_eq_true, if_true] at hpos ⊢
    omega
  · have hb : (row[k] == 1) = false := by simpa using h1
    simp only [hb, Bool.false_eq_true, if_false, beq_self_eq_true, if_true] at hpos ⊢
    omega

theorem liveCount_set (g : Grid) : ∀ (n : Nat) (row row' : List Int), g[n]? = some row →
    row.count 1 ≤ row'.count 1 → row'.count 1 ≤ row.count 1 + 1 →
    liveCount g ≤ liveCount (g.set n row') ∧ liveCount (g.set n row') ≤ liveCount g + 1 ∧
      row'.count 1 ≤ liveCount (g.set n row') := by
  induction g with
  | nil => intro n row row' h; simp at h
  | cons x xs ih =>
    intro n row row' h h1 h2
    cases n with
    | zero =>
      simp only [List.getElem?_cons_zero, Option.some.injEq] at h
      subst h
      simp only [liveCount, List.set_cons_zero, List.map_cons, List.sum_cons]
      omega
    | succ n =>
      simp only [List.getElem?_cons_succ] at h
      have := ih n row row' h h1 h2
      simp only [liveCount, List.set_cons_succ, List.map_cons, List.sum_cons] at this ⊢
      omega

/-- Storing 1 in a cell adds at most one live cell and leaves at least one. -/
theorem liveCount_write {g g' : Grid} {i j : Int} (h : g.write i j 1 = some g') :
    liveCount g ≤ liveCount g' ∧ liveCount g' ≤ liveCount g + 1 ∧ 1 ≤ liveCount g' := by
  unfold Grid.write at h
  split at h
  · split at h
    · rename_i row hrow
      split at h
      · rename_i hj
        injection h with h
        subst h
        obtain ⟨c1, c2, c3⟩ := count_set_one row j.toNat hj
        obtain ⟨l1, l2, l3⟩ := liveCount_set g i.toNat row (row.set j.toNat 1) hrow c1 c2
        exact ⟨l1, l2, le_trans c3 l3⟩
      · cases h
    · cases h
  · cases h

theorem liveCount_deadGrid (size : Int) : liveCount (deadGrid size) = 0 := by
  unfold liveCount deadGrid tabulate
  apply List.sum_eq_zero
  intro x hx
  simp only [List.mem_map, List.mem_range] at hx
  obtain ⟨row, ⟨i, -, rfl⟩, rfl⟩ := hx
  rw [List.count_eq_zero]
  simp

theorem seededUpTo_deadGrid {size : Int} (h0 : 0 ≤ size) : SeededUpTo size 0 (deadGrid size) := by
  refine ⟨deadGrid_square h0, ?_, ?_, ?_⟩
  · intro i j hi0 hi hj0 hj
    left
    unfold deadGrid
    rw [tabulate_read, if_pos ⟨hi0, by omega, hj0, by omega⟩]
  · rw [liveCount_deadGrid]; rfl
  · intro h; omega

/-- One store of the seeding loop keeps the invariant. -/
theorem SeededUpTo.write {size k row col : Int} {g : Grid} (hg : SeededUpTo size k g)
    (hrc : interior size row col) :
    ∃ g', g.write row col 1 = some g' ∧ SeededUpTo size (k + 1) g' := by
  obtain ⟨hsq, hcells, hle, -⟩ := hg
  have hrc' := hrc
  unfold interior at hrc'
  obtain ⟨g', hg'⟩ := Grid.write_of_square hsq (i := row) (j := col) (by omega) (by omega)
    (by omega) (by omega) 1
  obtain ⟨l1, l2, l3⟩ := liveCount_write hg'
  refine ⟨g', hg', Grid.write_square hsq hg', ?_, by omega, fun _ => l3⟩
  intro i j hi0 hi hj0 hj
  rw [Grid.read_write hg' i j]
  by_cases hij : i = row ∧ j = col
  · rw [if_pos hij, hij.1, hij.2]
    exact Or.inr ⟨rfl, hrc⟩
  · rw [if_neg hij]
    exact hcells i j hi0 hi hj0 hj

/-- The loop of `initialize_random` for a size whose square fits in an `int`
and non-negative values of `rand()`: it returns, and an invariant kept by
every store of 1 into an interior cell holds of both arrays at the end. -/
theorem initialize_random_total {size : Int} {rand : Nat → Int} (P : Int → Grid → Prop)
    (h0 : 0 ≤ size) (hmax : size ≤ 46340) (hrand : ∀ k, 0 ≤ rand k)
    (hP : ∀ k g row col, 0 ≤ k → P k g → interior size row col →
      ∃ g', g.write row col 1 = some g' ∧ P (k + 1) g')
    {array1 array2 : Grid} (h1 : P 0 array1) (h2 : P 0 array2) :
    ∃ r, initialize_random array1 array2 size rand = some r ∧
      P (size * size / 10) r.1 ∧ P (size * size / 10) r.2 := by
  have hcount := seedCount_eq h0 hmax
  have hnn : 0 ≤ size * size / 10 := Int.ediv_nonneg (by nlinarith) (by decide)
  obtain ⟨r, hrun, hr⟩ := forRange_total 0 (seedCount size)
    (fun i arrays => seedCell size (rand i.toNat) arrays)
    (fun k (t : Grid × Grid) => P k t.1 ∧ P k t.2) (array1, array2) ⟨h1, h2⟩
    (by
      intro k t hk0 hk ⟨t1, t2⟩
      have h4 : 4 ≤ size := (seedCount_pos_iff h0 hmax).1 (by omega)
      obtain ⟨d1, d2, hint⟩ := seed_indices h4 hmax (hrand k.toNat)
      obtain ⟨g1, w1, p1⟩ := hP k t.1 _ _ hk0 t1 hint
      obtain ⟨g2, w2, p2⟩ := hP k t.2 _ _ hk0 t2 hint
      refine ⟨(g1, g2), ?_, p1, p2⟩
      show seedCell size (rand k.toNat) t = some (g1, g2)
      rw [seedCell_eq, if_neg (ne_of_gt d1), if_neg (ne_of_gt d2), w1, w2]
      rfl)
  have hmaxeq : max 0 (seedCount size) = size * size / 10 := by
    rw [hcount]; omega
  rw [hmaxeq] at hr
  exact ⟨r, hrun, hr⟩

theorem witnessRand_nonneg (k : Nat) : 0 ≤ witnessRand k := by
  unfold witnessRand
  omega

theorem allocated4_zero (i j : Int) (hi0 : 0 ≤ i) (hi : i < 4) (hj0 : 0 ≤ j) (hj : j < 4) :
    allocated4.read i j = some 0 := by
  have hi' : i = 0 ∨ i = 1 ∨ i = 2 ∨ i = 3 := by omega
  have hj' : j = 0 ∨ j = 1 ∨ j = 2 ∨ j = 3 := by omega
  rcases hi' with rfl | rfl | rfl | rfl <;> rcases hj' with rfl | rfl | rfl | rfl <;> rfl

/-! ## One step computes the rule -/

/-- C1: on two distinct `size × size` arrays, `previous` binary, one step
succeeds and leaves in every interior cell of `current` the value 1 exactly
when the cell is alive in `previous` with 2 or 3 live cells among its eight
adjacent cells, or dead in `previous` with exactly 3 of them; otherwise 0.
(For `size < 3` there is no interior cell.) -/
theorem step_interior_is_life_rule (size : Int) (m : Machine)
    (hne : m.current ≠ m.previous)
    (hprev : Square size (m.deref m.previous)) (hcur : Square size (m.deref m.current))
    (hbin : Binary (m.deref m.previous)) :
    ∃ m', step size m = some m' ∧ ∀ i j, interior size i j →
      (m'.deref m'.current).read i j = some
        (if ((m.deref m.previous).read i j = some 1 ∧
              (liveNeighbours (m.deref m.previous) i j = 2 ∨
                liveNeighbours (m.deref m.previous) i j = 3)) ∨
            ((m.deref m.previous).read i j = some 0 ∧
              liveNeighbours (m.deref m.previous) i j = 3)
          then 1 else 0) := by
  obtain ⟨m', hrun, h1, -, -, -, h5⟩ := step_spec hne hcur hprev
  refine ⟨m', hrun, ?_⟩
  intro i j hij
  rw [h1, h5 i j, if_pos hij, nextCell_binary hbin i j]
  have hread : (m.deref m.previous).read i j = some ((m.deref m.previous).cell i j) := by
    unfold interior at hij
    exact Grid.read_eq_cell hprev (by omega) (by omega) (by omega) (by omega)
  simp only [hread, Option.some.injEq]

theorem step_interior_is_life_rule_witness :
    ∃ m', step 5 witnessMachine5 = some m' ∧ ∀ i j, interior 5 i j →
      (m'.deref m'.current).read i j = some
        (if ((witnessMachine5.deref witnessMachine5.previous).read i j = some 1 ∧
              (liveNeighbours (witnessMachine5.deref witnessMachine5.previous) i j = 2 ∨
                liveNeighbours (witnessMachine5.deref witnessMachine5.previous) i j = 3)) ∨
            ((witnessMachine5.deref witnessMachine5.previous).read i j = some 0 ∧
              liveNeighbours (witnessMachine5.deref witnessMachine5.previous) i j = 3)
          then 1 else 0) :=
  step_interior_is_life_rule 5 witnessMachine5 (by decide) (by decide) (by decide) (by decide)

/-! ## Refinement, frame and independence of the write buffer -/

/-- Cells `(i, j)` of a 5 × 5 array, enumerated. -/
theorem border5_cases {i j : Int} (h : border 5 i j) :
    (i = 0 ∨ i = 1 ∨ i = 2 ∨ i = 3 ∨ i = 4) ∧ (j = 0 ∨ j = 1 ∨ j = 2 ∨ j = 3 ∨ j = 4) := by
  unfold border at h
  omega

theorem staleGrid5_border (i j : Int) (h : border 5 i j) :
    staleGrid5.read i j = witnessGrid5.read i j := by
  obtain ⟨hi, hj⟩ := border5_cases h
  unfold border at h
  rcases hi with rfl | rfl | rfl | rfl | rfl <;> rcases hj with rfl | rfl | rfl | rfl | rfl <;>
    first
      | rfl
      | (exfalso; omega)

/-- C2: on two distinct `size × size` buffers that agree on all border cells,
the sequential step loop (step, then swap of the handles, `n` times) succeeds
and leaves `previous` designating the `n`-fold iterate of the single-grid
transition function `nextGen` (border kept, rule of the step on every interior
cell) applied to the initial `previous` grid; for `n = 0` that is the initial
grid itself.  When the initial `previous` grid is binary this is also the
`n`-fold iterate of `specGen`, the transition function with the rule in the
words of the specification. -/
theorem stepLoop_previous_is_iterate (n : Nat) (size : Int) (m : Machine)
    (hne : m.current ≠ m.previous)
    (hcur : Square size (m.deref m.current)) (hprev : Square size (m.deref m.previous))
    (hborder : ∀ i j, border size i j →
      (m.deref m.current).read i j = (m.deref m.previous).read i j) :
    ∃ m', stepLoop size (n : Int) m = some m' ∧
      m'.deref m'.previous = (nextGen size)^[n] (m.deref m.previous) ∧
      (Binary (m.deref m.previous) →
        m'.deref m'.previous = (specGen size)^[n] (m.deref m.previous)) := by
  obtain ⟨m', hrun, -, -, -, -, h⟩ := stepLoop_spec n hne hcur hprev hborder
  exact ⟨m', hrun, h, fun hb => h.trans (nextGen_iterate_eq_specGen hb size n).1⟩

theorem stepLoop_previous_is_iterate_witness :
    ∃ m', stepLoop 5 ((3 : Nat) : Int) staleMachine5 = some m' ∧
      m'.deref m'.previous = (nextGen 5)^[3] (staleMachine5.deref staleMachine5.previous) ∧
      (Binary (staleMachine5.deref staleMachine5.previous) →
        m'.deref m'.previous =
          (specGen 5)^[3] (staleMachine5.deref staleMachine5.previous)) :=
  stepLoop_previous_is_iterate 3 5 staleMachine5 (by decide) (by decide) (by decide)
    staleGrid5_border

/-- C3: with `current` and `previous` on distinct buffers, one step that
returns has changed no cell of `previous` and no border cell of `current`;
after `n` rounds of the step loop every border cell of each of the two buffers
holds the value that buffer held there initially; and on `size × size` buffers
both the step and the loop do return. -/
theorem step_writes_interior_only (size : Int) (n : Nat) (m : Machine)
    (hne : m.current ≠ m.previous) :
    (∀ m1, step size m = some m1 →
      m1.deref m.previous = m.deref m.previous ∧
      ∀ i j, border size i j →
        (m1.deref m.current).read i j = (m.deref m.current).read i j) ∧
    (∀ m', stepLoop size (n : Int) m = some m' →
      ∀ (b : Buf) (i j : Int), border size i j →
        (m'.deref b).read i j = (m.deref b).read i j) ∧
    (Square size (m.deref m.current) → Square size (m.deref m.previous) →
      (∃ m1, step size m = some m1) ∧ ∃ m', stepLoop size (n : Int) m = some m') := by
  have hbi : ∀ i j, border size i j → ¬ interior size i j := by
    intro i j hb
    unfold border at hb
    unfold interior
    omega
  refine ⟨?_, ?_, ?_⟩
  · intro m1 h1
    refine ⟨(step_frame h1).2.2.1 m.previous (Ne.symm hne), ?_⟩
    intro i j hb
    exact step_frame_read h1 m.current i j (hbi i j hb)
  · intro m' h b i j hb
    exact stepLoop_frame n h b i j (hbi i j hb)
  · intro hc hp
    obtain ⟨m1, h1, -⟩ := step_spec hne hc hp
    obtain ⟨m', h', -⟩ := stepLoop_total n hne hc hp
    exact ⟨⟨m1, h1⟩, ⟨m', h'⟩⟩

theorem step_writes_interior_only_witness :
    (∀ m1, step 5 staleMachine5 = some m1 →
      m1.deref staleMachine5.previous = staleMachine5.deref staleMachine5.previous ∧
      ∀ i j, border 5 i j →
        (m1.deref staleMachine5.current).read i j =
          (staleMachine5.deref staleMachine5.current).read i j) ∧
    (∀ m', stepLoop 5 ((4 : Nat) : Int) staleMachine5 = some m' →
      ∀ (b : Buf) (i j : Int), border 5 i j →
        (m'.deref b).read i j = (staleMachine5.deref b).read i j) ∧
    (Square 5 (staleMachine5.deref staleMachine5.current) →
      Square 5 (staleMachine5.deref staleMachine5.previous) →
      (∃ m1, step 5 staleMachine5 = some m1) ∧
        ∃ m', stepLoop 5 ((4 : Nat) : Int) staleMachine5 = some m') :=
  step_writes_interior_only 5 4 staleMachine5 (by decide)

/-- C4: the grid designated by `previous` after `n` sequential steps does not
depend on the interior of the write buffer: replacing the array `current`
points to by any `size × size` array `c'` with the same border cells gives a
run that also succeeds and ends with the same grid under `previous`. -/
theorem stale_interior_is_irrelevant (size : Int) (n : Nat) (m : Machine) (c' : Grid)
    (hne : m.current ≠ m.previous)
    (hcur : Square size (m.deref m.current)) (hprev : Square size (m.deref m.previous))
    (hc' : Square size c')
    (hborder : ∀ i j, border size i j → c'.read i j = (m.deref m.current).read i j) :
    ∃ r r', stepLoop size (n : Int) m = some r ∧
      stepLoop size (n : Int) (m.store m.current c') = some r' ∧
      r.deref r.previous = r'.deref r'.previous := by
  have hsc : (m.store m.current c').current = m.current := Machine.store_current _ _ _
  have hsp : (m.store m.current c').previous = m.previous := Machine.store_previous _ _ _
  have hdc : (m.store m.current c').deref m.current = c' := by
    rw [Machine.deref_store, if_pos rfl]
  have hdp : (m.store m.current c').deref m.previous = m.deref m.previous := by
    rw [Machine.deref_store, if_neg (Ne.symm hne)]
  cases n with
  | zero =>
    refine ⟨m, m.store m.current c', stepLoop_zero size m, stepLoop_zero size _, ?_⟩
    rw [hsp, hdp]
  | succ n =>
    obtain ⟨m1, hrun1, a1, a2, a3, a4, a5⟩ := stepBody_spec hne hcur hprev
    obtain ⟨m2, hrun2, b1, b2, b3, b4, b5⟩ := stepBody_spec (m := m.store m.current c')
      (by rw [hsc, hsp]; exact hne) (by rw [hsc, hdc]; exact hc')
      (by rw [hsp, hdp]; exact hprev)
    rw [hsc] at b2 b4 b5
    rw [hsp] at b1 b3
    rw [hsp, hdp] at b5
    rw [hdp] at b3
    rw [hdc] at b5
    have heq : m1 = m2 := by
      apply Machine.ext_deref (a1.trans b1.symm) (a2.trans b2.symm)
      intro b
      rcases Buf.eq_or_eq_of_ne hne b with hb | hb
      · subst hb
        apply Grid.square_ext a4 b4
        intro i j hi0 hi hj0 hj
        rw [a5 i j, b5 i j]
        by_cases hint : interior size i j
        · rw [if_pos hint, if_pos hint]
        · rw [if_neg hint, if_neg hint]
          have hbd : border size i j := by
            unfold border; unfold interior at hint; omega
          exact (hborder i j hbd).symm
      · subst hb
        rw [a3, b3]
    obtain ⟨r, hr, -⟩ := stepLoop_total n (m := m1) (by rw [a1, a2]; exact Ne.symm hne)
      (by rw [a1, a3]; exact hprev) (by rw [a2]; exact a4)
    refine ⟨r, r, ?_, ?_, rfl⟩
    · rw [stepLoop_succ, hrun1]; exact hr
    · rw [stepLoop_succ, hrun2, ← heq]; exact hr

theorem stale_interior_is_irrelevant_witness :
    ∃ r r', stepLoop 5 ((3 : Nat) : Int) witnessMachine5 = some r ∧
      stepLoop 5 ((3 : Nat) : Int) (witnessMachine5.store witnessMachine5.current staleGrid5) =
        some r' ∧
      r.deref r.previous = r'.deref r'.previous :=
  stale_interior_is_irrelevant 5 3 witnessMachine5 staleGrid5 (by decide) (by decide)
    (by decide) (by decide) staleGrid5_border

/-! ## Oscillator, still life, extinction and the test of the source -/

/-- C5: for a centre `(r, c)` with `2 ≤ r, c ≤ size - 3` (so `size ≥ 5`), when
both buffers hold exactly the horizontal blinker, the sequential step loop
succeeds for every `n` and the grid under `previous` is exactly the vertical
blinker when `n` is odd and exactly the horizontal blinker when `n` is even. -/
theorem blinker_oscillates (size r c : Int) (n : Nat) (m : Machine)
    (hr1 : 2 ≤ r) (hr2 : r ≤ size - 3) (hc1 : 2 ≤ c) (hc2 : c ≤ size - 3)
    (hne : m.current ≠ m.previous)
    (hA : m.memA = blinkerH size r c) (hB : m.memB = blinkerH size r c) :
    ∃ m', stepLoop size (n : Int) m = some m' ∧
      m'.deref m'.previous =
        if n % 2 = 1 then blinkerV size r c else blinkerH size r c := by
  obtain ⟨m', hrun, h⟩ := stepLoop_same n hne (blinkerH_square (by omega) r c) hA hB
  exact ⟨m', hrun, by rw [h, blinker_iterate size r c hr1 hr2 hc1 hc2 n]⟩

/-- The scenario of the specification: `size = 5`, one step, live cells
`(2,1)`, `(2,2)`, `(2,3)` become exactly `(1,2)`, `(2,2)`, `(3,2)`. -/
theorem blinker_oscillates_witness :
    witnessMachine5.memA = blinkerH 5 2 2 ∧ witnessMachine5.memB = blinkerH 5 2 2 ∧
    ∃ m', stepLoop 5 ((1 : Nat) : Int) witnessMachine5 = some m' ∧
      m'.deref m'.previous =
        [[0, 0, 0, 0, 0], [0, 0, 1, 0, 0], [0, 0, 1, 0, 0], [0, 0, 1, 0, 0], [0, 0, 0, 0, 0]] :=
  ⟨by decide, by decide,
    (blinker_oscillates 5 2 2 1 witnessMachine5 (by decide) (by decide) (by decide) (by decide)
      (by decide) (by decide) (by decide)).imp fun _ h => ⟨h.1, h.2.trans (by decide)⟩⟩

/-- C6: for `(r, c)` with `1 ≤ r, c ≤ size - 3` (so `size ≥ 4`), when both
buffers hold exactly the 2 × 2 block at `(r, c)`, the sequential step loop
succeeds for every `n` and the grid under `previous` is the initial grid. -/
theorem block_is_still (size r c : Int) (n : Nat) (m : Machine)
    (hr1 : 1 ≤ r) (hr2 : r ≤ size - 3) (hc1 : 1 ≤ c) (hc2 : c ≤ size - 3)
    (hne : m.current ≠ m.previous)
    (hA : m.memA = blockGrid size r c) (hB : m.memB = blockGrid size r c) :
    ∃ m', stepLoop size (n : Int) m = some m' ∧
      m'.deref m'.previous = blockGrid size r c := by
  obtain ⟨m', hrun, h⟩ := stepLoop_same n hne (blockGrid_square (by omega) r c) hA hB
  exact ⟨m', hrun, by rw [h, iterate_fixed (blockGrid_step size r c hr1 hr2 hc1 hc2) n]⟩

theorem block_is_still_witness :
    blockMachine4.memA = blockGrid 4 1 1 ∧ blockMachine4.memB = blockGrid 4 1 1 ∧
    ∃ m', stepLoop 4 ((7 : Nat) : Int) blockMachine4 = some m' ∧
      m'.deref m'.previous = blockGrid4 :=
  ⟨by decide, by decide,
    (block_is_still 4 1 1 7 blockMachine4 (by decide) (by decide) (by decide) (by decide)
      (by decide) (by decide) (by decide)).imp fun _ h => ⟨h.1, h.2.trans (by decide)⟩⟩

/-- C7 as stated fails: in `liveBorderMachine3` every interior cell of both
3 × 3 buffers is dead, the top border row is alive, and after one step the
interior cell `(1, 1)` of the latest generation is alive. -/
theorem dead_interior_revived_by_border :
    Square 3 (liveBorderMachine3.deref liveBorderMachine3.current) ∧
    Square 3 (liveBorderMachine3.deref liveBorderMachine3.previous) ∧
    (∀ (b : Buf) (i j : Int), interior 3 i j →
      (liveBorderMachine3.deref b).read i j = some 0) ∧
    interior 3 1 1 ∧
    (stepLoop 3 ((1 : Nat) : Int) liveBorderMachine3).map
      (fun m' => (m'.deref m'.previous).read 1 1) = some (some 1) := by
  refine ⟨by decide, by decide, ?_, by decide, by decide⟩
  intro b i j h
  unfold interior at h
  have hi : i = 1 := by omega
  have hj : j = 1 := by omega
  subst hi; subst hj
  cases b <;> rfl

/-- C7, amended: when every cell of both `size × size` buffers is dead,
border cells included, the sequential step loop succeeds for every `n` and
every cell of the grid under `previous`, interior cells in particular, is dead. -/
theorem dead_grid_stays_dead (size : Int) (n : Nat) (m : Machine) (hsize : 3 ≤ size)
    (hne : m.current ≠ m.previous)
    (hcur : Square size (m.deref m.current)) (hprev : Square size (m.deref m.previous))
    (hdead : ∀ (b : Buf) (i j : Int), 0 ≤ i → i < size → 0 ≤ j → j < size →
      (m.deref b).read i j = some 0) :
    ∃ m', stepLoop size (n : Int) m = some m' ∧
      (∀ i j, 0 ≤ i → i < size → 0 ≤ j → j < size →
        (m'.deref m'.previous).read i j = some 0) ∧
      ∀ i j, interior size i j → (m'.deref m'.previous).read i j = some 0 := by
  have h0 : (0 : Int) ≤ size := by omega
  have hd : ∀ b, m.deref b = deadGrid size := by
    intro b
    have hsq : Square size (m.deref b) := by
      rcases Buf.eq_or_eq_of_ne hne b with hb | hb
      · rw [hb]; exact hcur
      · rw [hb]; exact hprev
    apply Grid.square_ext hsq (deadGrid_square h0)
    intro i j hi0 hi hj0 hj
    rw [hdead b i j hi0 hi hj0 hj]
    unfold deadGrid
    rw [tabulate_read, if_pos ⟨hi0, by omega, hj0, by omega⟩]
  obtain ⟨m', hrun, h⟩ := stepLoop_same n hne (deadGrid_square h0) (hd Buf.A) (hd Buf.B)
  rw [iterate_fixed (deadGrid_step size) n] at h
  have hall : ∀ i j, 0 ≤ i → i < size → 0 ≤ j → j < size →
      (m'.deref m'.previous).read i j = some 0 := by
    intro i j hi0 hi hj0 hj
    rw [h]
    unfold deadGrid
    rw [tabulate_read, if_pos ⟨hi0, by omega, hj0, by omega⟩]
  refine ⟨m', hrun, hall, ?_⟩
  intro i j hij
  unfold interior at hij
  exact hall i j (by omega) (by omega) (by omega) (by omega)

theorem deadMachine3_dead (b : Buf) (i j : Int) (hi0 : 0 ≤ i) (hi : i < 3) (hj0 : 0 ≤ j)
    (hj : j < 3) : (deadMachine3.deref b).read i j = some 0 := by
  have hi' : i = 0 ∨ i = 1 ∨ i = 2 := by omega
  have hj' : j = 0 ∨ j = 1 ∨ j = 2 := by omega
  rcases hi' with rfl | rfl | rfl <;> rcases hj' with rfl | rfl | rfl <;> cases b <;> rfl

theorem dead_grid_stays_dead_witness :
    ∃ m', stepLoop 3 ((5 : Nat) : Int) deadMachine3 = some m' ∧
      (∀ i j, 0 ≤ i → i < 3 → 0 ≤ j → j < 3 →
        (m'.deref m'.previous).read i j = some 0) ∧
      ∀ i j, interior 3 i j → (m'.deref m'.previous).read i j = some 0 :=
  dead_grid_stays_dead 3 5 deadMachine3 (by decide) (by decide) (by decide) (by decide)
    deadMachine3_dead

/-- C8 as stated fails: in the binary array `crowdedGrid3` the interior cell
`(1, 1)` is alive with three live neighbours; the step sets it to 1 and
`neighbors == 3` holds, while `previous[1][1] + neighbors` is 4, not 3. -/
theorem set_to_one_without_sum_three :
    Binary crowdedGrid3 ∧ interior 3 1 1 ∧
    (step 3 crowdedMachine3).map (fun m' => (m'.deref m'.current).read 1 1) = some (some 1) ∧
    neighbourSum crowdedGrid3 1 1 = 3 ∧
    neighbors crowdedGrid3 1 1 = 3 ∧
    crowdedGrid3.cell 1 1 + neighbourSum crowdedGrid3 1 1 = 4 ∧
    ¬ ((neighbourSum crowdedGrid3 1 1 = 3 ∨
          (crowdedGrid3.cell 1 1 = 1 ∧ neighbourSum crowdedGrid3 1 1 = 2)) ↔
        crowdedGrid3.cell 1 1 + neighbourSum crowdedGrid3 1 1 = 3) := by
  refine ⟨by decide, by decide, by decide, by decide, by decide, by decide, by decide⟩

/-- C8, amended: on two distinct `size × size` arrays, `previous` binary, the
step sets an interior cell of `current` to 1 exactly when `neighbors == 3`, or
`previous[i][j] == 1` and `neighbors == 2`; and that condition holds exactly
when `neighbors == 3` or `previous[i][j] + neighbors == 3`, the test of the
source, where `neighbors` is the sum of the eight adjacent cells. -/
theorem set_to_one_iff (size : Int) (m : Machine) (i j : Int)
    (hne : m.current ≠ m.previous)
    (hprev : Square size (m.deref m.previous)) (hcur : Square size (m.deref m.current))
    (hbin : Binary (m.deref m.previous)) (hij : interior size i j) :
    ∃ m', step size m = some m' ∧
      ((m'.deref m'.current).read i j = some 1 ↔
        (neighbourSum (m.deref m.previous) i j = 3 ∨
          ((m.deref m.previous).cell i j = 1 ∧ neighbourSum (m.deref m.previous) i j = 2))) ∧
      ((neighbourSum (m.deref m.previous) i j = 3 ∨
          ((m.deref m.previous).cell i j = 1 ∧ neighbourSum (m.deref m.previous) i j = 2)) ↔
        (neighbourSum (m.deref m.previous) i j = 3 ∨
          (m.deref m.previous).cell i j + neighbourSum (m.deref m.previous) i j = 3)) ∧
      neighbors (m.deref m.previous) i j = neighbourSum (m.deref m.previous) i j := by
  obtain ⟨m', hrun, h1, -, -, -, h5⟩ := step_spec hne hcur hprev
  have hc := Grid.cell_bounds hbin i j
  have hiff : (neighbourSum (m.deref m.previous) i j = 3 ∨
      ((m.deref m.previous).cell i j = 1 ∧ neighbourSum (m.deref m.previous) i j = 2)) ↔
      (neighbourSum (m.deref m.previous) i j = 3 ∨
        (m.deref m.previous).cell i j + neighbourSum (m.deref m.previous) i j = 3) := by
    omega
  refine ⟨m', hrun, ?_, hiff, neighbors_eq_sum hbin i j⟩
  rw [h1, h5 i j, if_pos hij, nextCell_eq_sum hbin i j, hiff]
  by_cases h : neighbourSum (m.deref m.previous) i j = 3 ∨
      (m.deref m.previous).cell i j + neighbourSum (m.deref m.previous) i j = 3
  · simp [h]
  · simp [h]

theorem set_to_one_iff_witness :
    ∃ m', step 3 crowdedMachine3 = some m' ∧
      ((m'.deref m'.current).read 1 1 = some 1 ↔
        (neighbourSum (crowdedMachine3.deref crowdedMachine3.previous) 1 1 = 3 ∨
          ((crowdedMachine3.deref crowdedMachine3.previous).cell 1 1 = 1 ∧
            neighbourSum (crowdedMachine3.deref crowdedMachine3.previous) 1 1 = 2))) ∧
      ((neighbourSum (crowdedMachine3.deref crowdedMachine3.previous) 1 1 = 3 ∨
          ((crowdedMachine3.deref crowdedMachine3.previous).cell 1 1 = 1 ∧
            neighbourSum (crowdedMachine3.deref crowdedMachine3.previous) 1 1 = 2)) ↔
        (neighbourSum (crowdedMachine3.deref crowdedMachine3.previous) 1 1 = 3 ∨
          (crowdedMachine3.deref crowdedMachine3.previous).cell 1 1 +
            neighbourSum (crowdedMachine3.deref crowdedMachine3.previous) 1 1 = 3)) ∧
      neighbors (crowdedMachine3.deref crowdedMachine3.previous) 1 1 =
        neighbourSum (crowdedMachine3.deref crowdedMachine3.previous) 1 1 :=
  set_to_one_iff 3 crowdedMachine3 1 1 (by decide) (by decide) (by decide) (by decide)
    (by decide)

/-! ## Binary cells in every reachable state -/

/-- The set-up of `main` returns on a 6 × 6 example, so reachable states exist. -/
theorem setup_example :
    (setup (fun _ _ => 7) (fun _ _ => 9) 6 (fun k => 5 * (k : Int) + 3)).isSome = true := by
  decide

/-- C10: every cell of every buffer is 0 or 1 in every reachable state.
`allocate_array` returns an array whose cells are all 0; `initialize_random`
leaves in each cell its old value or 1; one step, whatever `previous` holds,
leaves in each cell of `current` its old value, 0 or 1 and does not touch the
other buffer; hence binary buffers stay binary through one step and through
any number of rounds of the step loop, and so are the buffers of every state
reached from the set-up of `main`. -/
theorem cells_stay_binary :
    (∀ (fresh : Int → Int → Int) (size : Int),
      ∃ g, allocate_array fresh size = some g ∧ ∀ i j v, g.read i j = some v → v = 0) ∧
    (∀ (array1 array2 : Grid) (size : Int) (rand : Nat → Int) (r : Grid × Grid),
      initialize_random array1 array2 size rand = some r →
      ∀ i j, (r.1.read i j = array1.read i j ∨ r.1.read i j = some 1) ∧
        (r.2.read i j = array2.read i j ∨ r.2.read i j = some 1)) ∧
    (∀ (size : Int) (m m' : Machine), step size m = some m' →
      (∀ b, b ≠ m.current → m'.deref b = m.deref b) ∧
      ∀ i j, (m'.deref m.current).read i j = (m.deref m.current).read i j ∨
        (m'.deref m.current).read i j = some 0 ∨ (m'.deref m.current).read i j = some 1) ∧
    (∀ (size : Int) (m m' : Machine), Binary m.memA → Binary m.memB →
      step size m = some m' → Binary m'.memA ∧ Binary m'.memB) ∧
    (∀ (size : Int) (n : Nat) (m m' : Machine), Binary m.memA → Binary m.memB →
      stepLoop size (n : Int) m = some m' → Binary m'.memA ∧ Binary m'.memB) ∧
    (∀ (freshA freshB : Int → Int → Int) (size : Int) (rand : Nat → Int) (n : Nat)
      (m0 m : Machine), setup freshA freshB size rand = some m0 →
      stepLoop size (n : Int) m0 = some m → Binary m.memA ∧ Binary m.memB) := by
  refine ⟨?_, ?_, ?_, ?_, ?_, ?_⟩
  · intro fresh size
    exact ⟨deadGrid size, allocate_array_eq fresh size, fun i j v h => deadGrid_read h⟩
  · intro array1 array2 size rand r h
    exact initialize_random_frame h
  · intro size m m' h
    obtain ⟨-, -, f3, f4⟩ := step_frame h
    refine ⟨f3, ?_⟩
    intro i j
    rcases f4 i j with h1 | ⟨-, h1⟩
    · exact Or.inl h1
    · exact Or.inr h1
  · intro size m m' hA hB h
    have hb : ∀ b, Binary (m.deref b) := by
      intro b
      cases b
      · exact hA
      · exact hB
    exact ⟨step_binary h hb Buf.A, step_binary h hb Buf.B⟩
  · intro size n m m' hA hB h
    have hb : ∀ b, Binary (m.deref b) := by
      intro b
      cases b
      · exact hA
      · exact hB
    exact ⟨stepLoop_binary n h hb Buf.A, stepLoop_binary n h hb Buf.B⟩
  · intro freshA freshB size rand n m0 m h0 h
    have hb := setup_binary h0
    exact ⟨stepLoop_binary n h hb Buf.A, stepLoop_binary n h hb Buf.B⟩

/-! ## Allocation, degenerate sizes and index safety -/

/-- C13: for every `size ≥ 0`, `allocate_array(size)` returns, whatever the
allocator left in the block, a grid of exactly `size` rows of exactly `size`
cells each, and every cell `(i, j)` with `0 ≤ i, j < size` is 0. -/
theorem allocate_array_is_zero_square (fresh : Int → Int → Int) (size : Int)
    (hsize : 0 ≤ size) :
    ∃ g, allocate_array fresh size = some g ∧
      (g.length : Int) = size ∧ (∀ row ∈ g, (row.length : Int) = size) ∧
      ∀ i j, 0 ≤ i → i < size → 0 ≤ j → j < size → g.read i j = some 0 := by
  have hsq := deadGrid_square hsize
  refine ⟨deadGrid size, allocate_array_eq fresh size, hsq.1, hsq.2, ?_⟩
  intro i j hi0 hi hj0 hj
  unfold deadGrid
  rw [tabulate_read, if_pos ⟨hi0, by omega, hj0, by omega⟩]

theorem allocate_array_is_zero_square_witness :
    ∃ g, allocate_array (fun i j => i + j + 7) 3 = some g ∧
      (g.length : Int) = 3 ∧ (∀ row ∈ g, (row.length : Int) = 3) ∧
      ∀ i j, 0 ≤ i → i < 3 → 0 ≤ j → j < 3 → g.read i j = some 0 :=
  allocate_array_is_zero_square (fun i j => i + j + 7) 3 (by decide)

theorem step_empty (size : Int) (hsize : size ≤ 2) (m : Machine) : step size m = some m := by
  unfold step
  exact forRange_empty 1 (size - 1) _ m (by omega)

theorem swapHandles_memA (m : Machine) : (swapHandles m).memA = m.memA := rfl

theorem swapHandles_memB (m : Machine) : (swapHandles m).memB = m.memB := rfl

theorem stepLoop_small (size : Int) (hsize : size ≤ 2) (n : Nat) : ∀ m : Machine,
    ∃ m', stepLoop size (n : Int) m = some m' ∧ m'.memA = m.memA ∧ m'.memB = m.memB ∧
      m'.current = (if n % 2 = 0 then m.current else m.previous) ∧
      m'.previous = (if n % 2 = 0 then m.previous else m.current) := by
  induction n with
  | zero => intro m; exact ⟨m, stepLoop_zero size m, rfl, rfl, rfl, rfl⟩
  | succ n ih =>
    intro m
    obtain ⟨m', hrun, h1, h2, h3, h4⟩ := ih (swapHandles m)
    refine ⟨m', ?_, h1, h2, ?_, ?_⟩
    · rw [stepLoop_succ]
      simp only [stepBody, step_empty size hsize m]
      exact hrun
    · rw [h3]
      by_cases hn : n % 2 = 0
      · have hn' : ¬ (n + 1) % 2 = 0 := by omega
        rw [if_pos hn, if_neg hn']; rfl
      · have hn' : (n + 1) % 2 = 0 := by omega
        rw [if_neg hn, if_pos hn']; rfl
    · rw [h4]
      by_cases hn : n % 2 = 0
      · have hn' : ¬ (n + 1) % 2 = 0 := by omega
        rw [if_pos hn, if_neg hn']; rfl
      · have hn' : (n + 1) % 2 = 0 := by omega
        rw [if_neg hn, if_pos hn']; rfl

/-- C14: for `size ≤ 2`, in particular `size` in `{0, 1, 2}`, and any two
arrays, even arrays on which every access would fail, a step returns the
machine unchanged: no cell is read or written and no index is evaluated.
The step loop returns for every number of rounds `n`, with both blocks
exactly as before and the handles swapped `n` times. -/
theorem small_size_is_noop (size : Int) (hsize : size ≤ 2) (n : Nat) (m : Machine) :
    step size m = some m ∧
    ∃ m', stepLoop size (n : Int) m = some m' ∧ m'.memA = m.memA ∧ m'.memB = m.memB ∧
      m'.current = (if n % 2 = 0 then m.current else m.previous) ∧
      m'.previous = (if n % 2 = 0 then m.previous else m.current) :=
  ⟨step_empty size hsize m, stepLoop_small size hsize n m⟩

theorem small_size_is_noop_witness :
    step 2 smallMachine2 = some smallMachine2 ∧
    ∃ m', stepLoop 2 ((5 : Nat) : Int) smallMachine2 = some m' ∧
      m'.memA = smallMachine2.memA ∧ m'.memB = smallMachine2.memB ∧
      m'.current = (if 5 % 2 = 0 then smallMachine2.current else smallMachine2.previous) ∧
      m'.previous = (if 5 % 2 = 0 then smallMachine2.previous else smallMachine2.current) :=
  small_size_is_noop 2 (by decide) 5 smallMachine2

/-- C16: on two distinct `size × size` buffers one step returns, so no read
of `previous` and no store into `current` took the out-of-range branch; and
for every interior cell `(i, j)` the row indices `i-1, i, i+1` and the column
indices `j-1, j, j+1` lie in `[0, size)`, the nine reads of `previous` and the
store into `current` succeed, and so does the loop body.  (For `size < 3`
there is no interior cell.) -/
theorem step_indices_in_range (size : Int) (m : Machine)
    (hne : m.current ≠ m.previous)
    (hcur : Square size (m.deref m.current)) (hprev : Square size (m.deref m.previous)) :
    (∃ m', step size m = some m') ∧
    ∀ i j, interior size i j →
      (∀ di dj : Int, (di = -1 ∨ di = 0 ∨ di = 1) → (dj = -1 ∨ dj = 0 ∨ dj = 1) →
        0 ≤ i + di ∧ i + di < size ∧ 0 ≤ j + dj ∧ j + dj < size ∧
        ∃ v, (m.deref m.previous).read (i + di) (j + dj) = some v) ∧
      (∀ v, ∃ g, (m.deref m.current).write i j v = some g) ∧
      ∃ m1, cellUpdate i j m = some m1 := by
  obtain ⟨m', hrun, -⟩ := step_spec hne hcur hprev
  refine ⟨⟨m', hrun⟩, ?_⟩
  intro i j hij
  have hij' := hij
  unfold interior at hij'
  refine ⟨?_, ?_, ?_⟩
  · intro di dj hdi hdj
    have b1 : 0 ≤ i + di := by omega
    have b2 : i + di < size := by omega
    have b3 : 0 ≤ j + dj := by omega
    have b4 : j + dj < size := by omega
    exact ⟨b1, b2, b3, b4, Grid.read_of_square hprev b1 b2 b3 b4⟩
  · intro v
    exact Grid.write_of_square hcur (by omega) (by omega) (by omega) (by omega) v
  · obtain ⟨g, hg⟩ := Grid.write_of_square hcur (i := i) (j := j) (by omega) (by omega)
      (by omega) (by omega) (nextCell (m.deref m.previous) i j)
    refine ⟨m.store m.current g, ?_⟩
    rw [cellUpdate_eq hprev hij]
    simp [Machine.assign, hg]

theorem step_indices_in_range_witness :
    (∃ m', step 5 staleMachine5 = some m') ∧
    ∀ i j, interior 5 i j →
      (∀ di dj : Int, (di = -1 ∨ di = 0 ∨ di = 1) → (dj = -1 ∨ dj = 0 ∨ dj = 1) →
        0 ≤ i + di ∧ i + di < 5 ∧ 0 ≤ j + dj ∧ j + dj < 5 ∧
        ∃ v, (staleMachine5.deref staleMachine5.previous).read (i + di) (j + dj) = some v) ∧
      (∀ v, ∃ g, (staleMachine5.deref staleMachine5.current).write i j v = some g) ∧
      ∃ m1, cellUpdate i j staleMachine5 = some m1 :=
  step_indices_in_range 5 staleMachine5 (by decide) (by decide) (by decide)

/-! ## Seeding -/

/-- The loop of `initialize_random` keeps two equal arrays equal. -/
theorem initialize_random_equal {a : Grid} {size : Int} {rand : Nat → Int} {r : Grid × Grid}
    (h : initialize_random a a size rand = some r) : r.1 = r.2 := by
  refine forRange_inv 0 _ _ (fun t : Grid × Grid => t.1 = t.2) (a, a) r rfl ?_ h
  intro k t t' _ _ ht hseed
  obtain ⟨row, col, w1, w2⟩ := seedCell_frame hseed
  rw [ht] at w1
  rw [w1] at w2
  injection w2

theorem setup_eq {freshA freshB : Int → Int → Int} {size : Int} {rand : Nat → Int}
    {m0 : Machine} (h : setup freshA freshB size rand = some m0) :
    ∃ r, initialize_random (deadGrid size) (deadGrid size) size rand = some r ∧
      m0 = { memA := r.2, memB := r.1, current := Buf.A, previous := Buf.B } := by
  unfold setup at h
  rw [allocate_array_eq, allocate_array_eq] at h
  simp only [Option.bind_eq_bind, Option.some_bind, Option.bind_eq_some] at h
  obtain ⟨r, hr, hm⟩ := h
  injection hm with hm
  exact ⟨r, hr, hm.symm⟩

theorem setup_of_initialize_random {freshA freshB : Int → Int → Int} {size : Int}
    {rand : Nat → Int} {r : Grid × Grid}
    (h : initialize_random (deadGrid size) (deadGrid size) size rand = some r) :
    setup freshA freshB size rand =
      some { memA := r.2, memB := r.1, current := Buf.A, previous := Buf.B } := by
  unfold setup
  rw [allocate_array_eq, allocate_array_eq]
  simp only [Option.bind_eq_bind, Option.some_bind, h]

/-- C11: whatever `size` and the values returned by `rand()`, when
`initialize_random` is called on two arrays with equal contents and returns,
the two arrays have equal contents afterwards; in particular the two buffers
of `main`, fresh from `allocate_array(size)`, are identical after seeding.
For `0 ≤ size ≤ 46340` (the square fits in an `int`), non-negative values of
`rand()` and `size × size` arrays the call does return. -/
theorem seeding_keeps_arrays_equal (size : Int) (rand : Nat → Int) (a : Grid) :
    (∀ r, initialize_random a a size rand = some r → r.1 = r.2) ∧
    (∀ (freshA freshB : Int → Int → Int) (m0 : Machine),
      setup freshA freshB size rand = some m0 → m0.memA = m0.memB) ∧
    (0 ≤ size → size ≤ 46340 → (∀ k, 0 ≤ rand k) →
      (Square size a → ∃ r, initialize_random a a size rand = some r ∧ r.1 = r.2) ∧
      ∀ freshA freshB : Int → Int → Int,
        ∃ m0, setup freshA freshB size rand = some m0 ∧ m0.memA = m0.memB) := by
  refine ⟨fun r h => initialize_random_equal h, ?_, ?_⟩
  · intro freshA freshB m0 h
    obtain ⟨r, hr, rfl⟩ := setup_eq h
    exact (initialize_random_equal hr).symm
  · intro h0 hmax hrand
    have total : ∀ g : Grid, Square size g →
        ∃ r, initialize_random g g size rand = some r ∧ r.1 = r.2 := by
      intro g hg
      obtain ⟨r, hr, -⟩ := initialize_random_total (fun _ g => Square size g) h0 hmax hrand
        (fun k g row col _ hsq hint => by
          have hint' := hint
          unfold interior at hint'
          obtain ⟨g', hg'⟩ := Grid.write_of_square hsq (i := row) (j := col) (by omega)
            (by omega) (by omega) (by omega) 1
          exact ⟨g', hg', Grid.write_square hsq hg'⟩) hg hg
      exact ⟨r, hr, initialize_random_equal hr⟩
    refine ⟨total a, ?_⟩
    intro freshA freshB
    obtain ⟨r, hr, heq⟩ := total (deadGrid size) (deadGrid_square h0)
    exact ⟨_, setup_of_initialize_random hr, heq.symm⟩

/-- C12 as stated fails: for `size = 46341` the product `size * size` leaves
the 32-bit range, the bound `(size * size) / 10` of the loop is negative, the
loop body never runs and two all-zero arrays stay all-zero, although `size ≥ 4`. -/
theorem seeding_skipped_at_46341 :
    (4 : Int) ≤ 46341 ∧ seedCount 46341 < 0 ∧
    initialize_random (deadGrid 46341) (deadGrid 46341) 46341 (fun _ => 0) =
      some (deadGrid 46341, deadGrid 46341) ∧
    liveCount (deadGrid 46341) = 0 := by
  have hc : seedCount 46341 < 0 := by decide
  exact ⟨by decide, hc, initialize_random_empty _ _ _ _ (le_of_lt hc),
    liveCount_deadGrid 46341⟩

/-- C12, amended: for `3 ≤ size ≤ 46340` (the square fits in an `int`) and
non-negative values of `rand()`, `initialize_random` on two all-zero
`size × size` arrays returns, and in each array afterwards every cell is 0, or
1 at an interior cell; the number of live cells is at most `(size * size) / 10`
and at least 1 when `size ≥ 4`. -/
theorem seeding_marks_interior (size : Int) (rand : Nat → Int) (a1 a2 : Grid)
    (h3 : 3 ≤ size) (hmax : size ≤ 46340) (hrand : ∀ k, 0 ≤ rand k)
    (hs1 : Square size a1) (hs2 : Square size a2)
    (hz1 : ∀ i j, 0 ≤ i → i < size → 0 ≤ j → j < size → a1.read i j = some 0)
    (hz2 : ∀ i j, 0 ≤ i → i < size → 0 ≤ j → j < size → a2.read i j = some 0) :
    ∃ r, initialize_random a1 a2 size rand = some r ∧
      ∀ g, g = r.1 ∨ g = r.2 →
        Square size g ∧
        (∀ i j, 0 ≤ i → i < size → 0 ≤ j → j < size →
          g.read i j = some 0 ∨ (g.read i j = some 1 ∧ interior size i j)) ∧
        (liveCount g : Int) ≤ size * size / 10 ∧
        (4 ≤ size → 1 ≤ liveCount g) := by
  have h0 : (0 : Int) ≤ size := by omega
  have hdead : ∀ g : Grid, Square size g →
      (∀ i j, 0 ≤ i → i < size → 0 ≤ j → j < size → g.read i j = some 0) →
      g = deadGrid size := by
    intro g hsq hz
    apply Grid.square_ext hsq (deadGrid_square h0)
    intro i j hi0 hi hj0 hj
    rw [hz i j hi0 hi hj0 hj]
    unfold deadGrid
    rw [tabulate_read, if_pos ⟨hi0, by omega, hj0, by omega⟩]
  rw [hdead a1 hs1 hz1, hdead a2 hs2 hz2]
  obtain ⟨r, hr, p1, p2⟩ := initialize_random_total (SeededUpTo size) h0 hmax hrand
    (fun k g row col _ hg hint => hg.write hint)
    (seededUpTo_deadGrid h0) (seededUpTo_deadGrid h0)
  refine ⟨r, hr, ?_⟩
  have hk : 4 ≤ size → 1 ≤ size * size / 10 := by
    intro h4
    have := (seedCount_pos_iff h0 hmax).2 h4
    rwa [seedCount_eq h0 hmax] at this
  intro g hg
  rcases hg with rfl | rfl
  · exact ⟨p1.1, p1.2.1, p1.2.2.1, fun h4 => p1.2.2.2 (hk h4)⟩
  · exact ⟨p2.1, p2.2.1, p2.2.2.1, fun h4 => p2.2.2.2 (hk h4)⟩

theorem seeding_marks_interior_witness :
    ∃ r, initialize_random (allocated4) (allocated4) 4 witnessRand = some r ∧
      ∀ g, g = r.1 ∨ g = r.2 →
        Square 4 g ∧
        (∀ i j, 0 ≤ i → i < 4 → 0 ≤ j → j < 4 →
          g.read i j = some 0 ∨ (g.read i j = some 1 ∧ interior 4 i j)) ∧
        (liveCount g : Int) ≤ 4 * 4 / 10 ∧
        ((4 : Int) ≤ 4 → 1 ≤ liveCount g) :=
  seeding_marks_interior 4 witnessRand allocated4 allocated4 (by decide)
    (by decide) witnessRand_nonneg (by decide) (by decide) allocated4_zero allocated4_zero

/-- C17 as stated fails: for `size = 65538` the bound of the loop is
`26214 ≥ 1`, so the body runs, and the divisor `(size - 2) * (size - 2)`
wraps to 0: the first round evaluates `rand() % 0`, whatever the arrays and
the values of `rand()`. -/
theorem seeding_divides_by_zero_at_65538 :
    seedCount 65538 = 26214 ∧ seedDivisor 65538 = 0 ∧
    ∀ (array1 array2 : Grid) (rand : Nat → Int),
      initialize_random array1 array2 65538 rand = none := by
  have hc : seedCount 65538 = 26214 := by decide
  have hd : seedDivisor 65538 = 0 := by decide
  refine ⟨hc, hd, ?_⟩
  intro array1 array2 rand
  have hn : (seedCount 65538 - 0).toNat = 26213 + 1 := by rw [hc]; decide
  rw [initialize_random_eq]
  unfold forRange
  rw [hn]
  simp only [forFrom, seedCell_eq, hd, if_true]

/-- C17, amended: for `0 ≤ size ≤ 46340` (the square fits in an `int`),
non-negative values of `rand()` and two `size × size` arrays,
`initialize_random` returns: no remainder or quotient has divisor 0 and no
store leaves the arrays.  Whenever the loop body runs, that is
`(size * size) / 10 ≥ 1`, then `size ≥ 4`, both divisors are positive and both
indices computed from a non-negative `rand()` lie in `[1, size - 2]`; for
`size ≤ 3` the bound is 0 and the call returns the arrays untouched, whatever
they are, also for `size = 2` where both divisors are 0. -/
theorem seeding_is_safe (size : Int) (rand : Nat → Int) (a1 a2 : Grid)
    (h0 : 0 ≤ size) (hmax : size ≤ 46340) (hrand : ∀ k, 0 ≤ rand k)
    (hs1 : Square size a1) (hs2 : Square size a2) :
    (∃ r, initialize_random a1 a2 size rand = some r ∧ Square size r.1 ∧ Square size r.2) ∧
    (1 ≤ seedCount size →
      4 ≤ size ∧ 0 < seedDivisor size ∧ 0 < size - 2 ∧
      ∀ r, 0 ≤ r →
        1 ≤ seedRow size r ∧ seedRow size r ≤ size - 2 ∧
        1 ≤ seedCol size r ∧ seedCol size r ≤ size - 2) ∧
    (size ≤ 3 →
      seedCount size = 0 ∧
      ∀ b1 b2 : Grid, initialize_random b1 b2 size rand = some (b1, b2)) ∧
    (seedDivisor 2 = 0 ∧ (2 : Int) - 2 = 0 ∧ seedCount 2 = 0) ∧
    (∀ (r : Int) (arrays : Grid × Grid), seedCell size r arrays =
      if seedDivisor size = 0 then none
      else if size - 2 = 0 then none
      else (arrays.1.write (seedRow size r) (seedCol size r) 1).bind fun array1 =>
        (arrays.2.write (seedRow size r) (seedCol size r) 1).bind fun array2 =>
          some (array1, array2)) := by
  refine ⟨?_, ?_, ?_, ⟨by decide, by decide, by decide⟩, fun r arrays => seedCell_eq size r arrays⟩
  · exact initialize_random_total (fun _ g => Square size g) h0 hmax hrand
      (fun k g row col _ hsq hint => by
        have hint' := hint
        unfold interior at hint'
        obtain ⟨g', hg'⟩ := Grid.write_of_square hsq (i := row) (j := col) (by omega)
          (by omega) (by omega) (by omega) 1
        exact ⟨g', hg', Grid.write_square hsq hg'⟩) hs1 hs2
  · intro hc
    have h4 : 4 ≤ size := (seedCount_pos_iff h0 hmax).1 hc
    refine ⟨h4, (seed_indices h4 hmax (le_refl 0)).1, by omega, ?_⟩
    intro r hr
    have := (seed_indices h4 hmax hr).2.2
    unfold interior at this
    exact this
  · intro h3
    have hc := seedCount_small h0 h3
    exact ⟨hc, fun b1 b2 => initialize_random_empty b1 b2 size rand (le_of_eq hc)⟩

theorem seeding_is_safe_witness :
    (∃ r, initialize_random allocated4 allocated4 4 witnessRand = some r ∧
      Square 4 r.1 ∧ Square 4 r.2) ∧
    (1 ≤ seedCount 4 →
      (4 : Int) ≤ 4 ∧ 0 < seedDivisor 4 ∧ (0 : Int) < 4 - 2 ∧
      ∀ r, 0 ≤ r →
        1 ≤ seedRow 4 r ∧ seedRow 4 r ≤ 4 - 2 ∧
        1 ≤ seedCol 4 r ∧ seedCol 4 r ≤ 4 - 2) ∧
    ((4 : Int) ≤ 3 →
      seedCount 4 = 0 ∧
      ∀ b1 b2 : Grid, initialize_random b1 b2 4 witnessRand = some (b1, b2)) ∧
    (seedDivisor 2 = 0 ∧ (2 : Int) - 2 = 0 ∧ seedCount 2 = 0) ∧
    (∀ (r : Int) (arrays : Grid × Grid), seedCell 4 r arrays =
      if seedDivisor 4 = 0 then none
      else if (4 : Int) - 2 = 0 then none
      else (arrays.1.write (seedRow 4 r) (seedCol 4 r) 1).bind fun array1 =>
        (arrays.2.write (seedRow 4 r) (seedCol 4 r) 1).bind fun array2 =>
          some (array1, array2)) :=
  seeding_is_safe 4 witnessRand allocated4 allocated4 (by decide) (by decide)
    witnessRand_nonneg (by decide) (by decide)

/-! ## Any order of the cell updates -/

theorem mem_interiorRange (size j : Int) : j ∈ interiorRange size ↔ 1 ≤ j ∧ j ≤ size - 2 := by
  unfold interiorRange
  simp only [List.mem_map, List.mem_range]
  constructor
  · rintro ⟨k, hk, rfl⟩
    omega
  · intro h
    exact ⟨(j - 1).toNat, by omega, by omega⟩

theorem mem_rowCells (size i : Int) (c : Int × Int) :
    c ∈ rowCells size i ↔ c.1 = i ∧ 1 ≤ c.2 ∧ c.2 ≤ size - 2 := by
  obtain ⟨a, b⟩ := c
  unfold rowCells
  simp only [List.mem_map, mem_interiorRange, Prod.mk.injEq]
  constructor
  · rintro ⟨j, hj, rfl, rfl⟩
    exact ⟨rfl, hj⟩
  · rintro ⟨rfl, hb⟩
    exact ⟨b, hb, rfl, rfl⟩

/-- The cells of `rowMajor` are exactly the interior cells. -/
theorem mem_rowMajor (size : Int) (c : Int × Int) :
    c ∈ rowMajor size ↔ interior size c.1 c.2 := by
  unfold rowMajor interior
  simp only [List.mem_flatMap, mem_interiorRange, mem_rowCells]
  constructor
  · rintro ⟨i, hi, h1, h2⟩
    rw [h1]
    exact ⟨hi.1, hi.2, h2.1, h2.2⟩
  · rintro ⟨h1, h2, h3, h4⟩
    exact ⟨c.1, ⟨h1, h2⟩, rfl, h3, h4⟩

/-- The loop body at a list of interior cells, in the order of the list, on
two distinct `size × size` arrays. -/
theorem runCells_spec {size : Int} (cells : List (Int × Int)) : ∀ {m : Machine},
    m.current ≠ m.previous →
    Square size (m.deref m.current) → Square size (m.deref m.previous) →
    (∀ c ∈ cells, interior size c.1 c.2) →
    ∃ m', runCells cells m = some m' ∧
      m'.current = m.current ∧ m'.previous = m.previous ∧
      m'.deref m.previous = m.deref m.previous ∧
      Square size (m'.deref m.current) ∧
      ∀ a b, (m'.deref m.current).read a b =
        if (a, b) ∈ cells then some (nextCell (m.deref m.previous) a b)
        else (m.deref m.current).read a b := by
  induction cells with
  | nil =>
    intro m _ hc _ _
    exact ⟨m, rfl, rfl, rfl, rfl, hc, fun a b => by simp⟩
  | cons c cs ih =>
    intro m hne hc hp hint
    have hcint : interior size c.1 c.2 := hint c (List.mem_cons_self c cs)
    have hcint' := hcint
    unfold interior at hcint'
    obtain ⟨g', hg'⟩ := Grid.write_of_square hc (i := c.1) (j := c.2) (by omega) (by omega)
      (by omega) (by omega) (nextCell (m.deref m.previous) c.1 c.2)
    have hcell : cellUpdate c.1 c.2 m = some (m.store m.current g') := by
      rw [cellUpdate_eq hp hcint]
      simp [Machine.assign, hg']
    have s1 : (m.store m.current g').current = m.current := Machine.store_current _ _ _
    have s2 : (m.store m.current g').previous = m.previous := Machine.store_previous _ _ _
    have s3 : (m.store m.current g').deref m.previous = m.deref m.previous := by
      rw [Machine.deref_store, if_neg (Ne.symm hne)]
    have s4 : (m.store m.current g').deref m.current = g' := by
      rw [Machine.deref_store, if_pos rfl]
    obtain ⟨m', hrun, r1, r2, r3, r4, r5⟩ := ih (m := m.store m.current g')
      (by rw [s1, s2]; exact hne)
      (by rw [s1, s4]; exact Grid.write_square hc hg')
      (by rw [s2, s3]; exact hp)
      (fun d hd => hint d (List.mem_cons_of_mem c hd))
    rw [s1] at r1 r4 r5
    rw [s2] at r2 r3
    rw [s2, s3, s4] at r5
    refine ⟨m', ?_, r1, r2, r3.trans s3, r4, ?_⟩
    · simp only [runCells, hcell]
      exact hrun
    · intro a b
      rw [r5 a b, Grid.read_write hg' a b]
      by_cases hcs : (a, b) ∈ cs
      · rw [if_pos hcs, if_pos (List.mem_cons_of_mem c hcs)]
      · rw [if_neg hcs]
        by_cases hab : a = c.1 ∧ b = c.2
        · have hmem : (a, b) ∈ c :: cs := by
            have : (a, b) = c := by
              obtain ⟨h1, h2⟩ := hab
              exact Prod.ext h1 h2
            rw [this]
            exact List.mem_cons_self c cs
          rw [if_pos hab, if_pos hmem, hab.1, hab.2]
        · have hmem : ¬ (a, b) ∈ c :: cs := by
            intro h
            rcases List.mem_cons.1 h with h | h
            · exact hab ⟨by rw [← h], by rw [← h]⟩
            · exact hcs h
          rw [if_neg hab, if_neg hmem]

/-- The loop body at any list holding exactly the interior cells gives the
machine the step of the source gives. -/
theorem runCells_eq_step {size : Int} {m : Machine} (hne : m.current ≠ m.previous)
    (hcur : Square size (m.deref m.current)) (hprev : Square size (m.deref m.previous))
    (cells : List (Int × Int)) (hcells : ∀ c, c ∈ cells ↔ interior size c.1 c.2) :
    runCells cells m = step size m := by
  obtain ⟨m1, hrun1, a1, a2, a3, a4, a5⟩ := runCells_spec cells hne hcur hprev
    (fun c hc => (hcells c).1 hc)
  obtain ⟨m2, hrun2, b1, b2, b3, b4, b5⟩ := step_spec hne hcur hprev
  rw [hrun1, hrun2]
  congr 1
  apply Machine.ext_deref (a1.trans b1.symm) (a2.trans b2.symm)
  intro b
  rcases Buf.eq_or_eq_of_ne hne b with hb | hb
  · subst hb
    apply Grid.square_ext a4 b4
    intro i j _ _ _ _
    rw [a5 i j, b5 i j]
    by_cases hint : interior size i j
    · rw [if_pos ((hcells (i, j)).2 hint), if_pos hint]
    · rw [if_neg (fun h => hint ((hcells (i, j)).1 h)), if_neg hint]
  · subst hb
    rw [a3, b3]

/-- C15: on two distinct `size × size` buffers, executing the loop body at
the interior cells in any order (any permutation `cells` of the row-major
list, in particular the rows taken as slices in any order `rows`) gives the
same machine, hence the same `current` grid, as the loops of the source, which
are the row-major order; the step returns. -/
theorem update_order_is_irrelevant (size : Int) (m : Machine) (cells : List (Int × Int))
    (hne : m.current ≠ m.previous)
    (hcur : Square size (m.deref m.current)) (hprev : Square size (m.deref m.previous))
    (hperm : cells.Perm (rowMajor size)) :
    (∃ m', step size m = some m') ∧
    runCells (rowMajor size) m = step size m ∧
    runCells cells m = step size m ∧
    (∀ rows : List Int, rows.Perm (interiorRange size) →
      runCells (sliceOrder size rows) m = step size m) ∧
    ∀ i j, (i, j) ∈ rowMajor size ↔ interior size i j := by
  refine ⟨?_, ?_, ?_, ?_, ?_⟩
  · obtain ⟨m', h, -⟩ := step_spec hne hcur hprev
    exact ⟨m', h⟩
  · exact runCells_eq_step hne hcur hprev _ (mem_rowMajor size)
  · exact runCells_eq_step hne hcur hprev _
      (fun c => (hperm.mem_iff).trans (mem_rowMajor size c))
  · intro rows hrows
    have hp : (sliceOrder size rows).Perm (rowMajor size) :=
      List.Perm.flatMap_right _ hrows
    exact runCells_eq_step hne hcur hprev _
      (fun c => (hp.mem_iff).trans (mem_rowMajor size c))
  · intro i j
    exact mem_rowMajor size (i, j)

theorem update_order_is_irrelevant_witness :
    (∃ m', step 5 staleMachine5 = some m') ∧
    runCells (rowMajor 5) staleMachine5 = step 5 staleMachine5 ∧
    runCells [(3, 3), (1, 2), (2, 2), (1, 1), (3, 1), (2, 3), (1, 3), (3, 2), (2, 1)]
      staleMachine5 = step 5 staleMachine5 ∧
    (∀ rows : List Int, rows.Perm (interiorRange 5) →
      runCells (sliceOrder 5 rows) staleMachine5 = step 5 staleMachine5) ∧
    ∀ i j, (i, j) ∈ rowMajor 5 ↔ interior 5 i j :=
  update_order_is_irrelevant 5 staleMachine5
    [(3, 3), (1, 2), (2, 2), (1, 1), (3, 1), (2, 3), (1, 3), (3, 2), (2, 1)]
    (by decide) (by decide) (by decide) (by decide)

/-! ## The eight trials -/

/-- A loop whose body ignores the counter: the last round can be split off. -/
theorem forFrom_const_succ {σ : Type} (f : σ → Option σ) :
    ∀ (n : Nat) (i : Int) (s : σ),
      forFrom (fun _ t => f t) (n + 1) i s = (forFrom (fun _ t => f t) n i s).bind f := by
  intro n
  induction n with
  | zero =>
    intro i s
    simp only [forFrom, Option.some_bind]
    cases hs : f s <;> rfl
  | succ n ih =>
    intro i s
    rw [forFrom]
    cases hs : f s with
    | none => simp [forFrom, hs]
    | some t =>
      simp only []
      rw [ih (i + 1) t]
      conv_rhs => rw [forFrom]
      simp only [hs]

theorem trialsPrefix_zero (size steps : Int) (m : Machine) :
    trialsPrefix size steps 0 m = some m := by
  simp [trialsPrefix, forRange, forFrom]

/-- Trial `k + 1` runs the step loop on the machine left by trial `k`. -/
theorem trialsPrefix_succ (size steps : Int) (k : Nat) (m : Machine) :
    trialsPrefix size steps ((k + 1 : Nat) : Int) m =
      (trialsPrefix size steps (k : Int) m).bind (stepLoop size steps) := by
  have e1 : (((k + 1 : Nat) : Int) + 1 - 1).toNat = k + 1 := by omega
  have e2 : ((k : Int) + 1 - 1).toNat = k := by omega
  unfold trialsPrefix forRange
  rw [e1, e2]
  exact forFrom_const_succ (stepLoop size steps) k 1 m

theorem trials_eq_trialsPrefix (size steps : Int) (m : Machine) :
    trials size steps m = trialsPrefix size steps 8 m := rfl

/-- The first `k` trials on two distinct `size × size` arrays that agree on the border. -/
theorem trialsPrefix_spec {size : Int} (steps : Nat) (k : Nat) {m : Machine}
    (hne : m.current ≠ m.previous)
    (hcur : Square size (m.deref m.current)) (hprev : Square size (m.deref m.previous))
    (hborder : ∀ i j, border size i j →
      (m.deref m.current).read i j = (m.deref m.previous).read i j) :
    ∃ m', trialsPrefix size (steps : Int) (k : Int) m = some m' ∧
      m'.current ≠ m'.previous ∧
      Square size (m'.deref m'.current) ∧ Square size (m'.deref m'.previous) ∧
      (∀ i j, border size i j →
        (m'.deref m'.current).read i j = (m'.deref m'.previous).read i j) ∧
      m'.deref m'.previous = (nextGen size)^[k * steps] (m.deref m.previous) := by
  induction k with
  | zero =>
    refine ⟨m, trialsPrefix_zero size steps m, hne, hcur, hprev, hborder, ?_⟩
    simp
  | succ k ih =>
    obtain ⟨mk, hrun, h1, h2, h3, h4, h5⟩ := ih
    obtain ⟨m', hrun', r1, r2, r3, r4, r5⟩ := stepLoop_spec steps h1 h2 h3 h4
    refine ⟨m', ?_, r1, r2, r3, r4, ?_⟩
    · rw [trialsPrefix_succ, hrun]
      exact hrun'
    · rw [r5, h5, ← Function.iterate_add_apply]
      congr 1
      ring

/-- C18: under sequential execution of the step loop, on two distinct
`size × size` buffers that agree on the border, trial `k + 1` runs the step
loop on the machine left by trial `k` (nothing is seeded or reset in between),
the grid under `previous` at the end of trial `k` is generation `k * steps` of
the initial `previous` grid, for `k = 0` the initial grid, and at the end of
the eight trials of the program it is generation `8 * steps`. -/
theorem trials_continue_generations (size : Int) (steps k : Nat) (m : Machine)
    (hne : m.current ≠ m.previous)
    (hcur : Square size (m.deref m.current)) (hprev : Square size (m.deref m.previous))
    (hborder : ∀ i j, border size i j →
      (m.deref m.current).read i j = (m.deref m.previous).read i j) :
    (trialsPrefix size (steps : Int) ((k + 1 : Nat) : Int) m =
      (trialsPrefix size (steps : Int) (k : Int) m).bind (stepLoop size (steps : Int))) ∧
    (∃ mk, trialsPrefix size (steps : Int) (k : Int) m = some mk ∧
      mk.deref mk.previous = (nextGen size)^[k * steps] (m.deref m.previous)) ∧
    (∃ m8, trials size (steps : Int) m = some m8 ∧
      m8.deref m8.previous = (nextGen size)^[8 * steps] (m.deref m.previous)) := by
  refine ⟨trialsPrefix_succ size steps k m, ?_, ?_⟩
  · obtain ⟨mk, hrun, -, -, -, -, h⟩ := trialsPrefix_spec steps k hne hcur hprev hborder
    exact ⟨mk, hrun, h⟩
  · obtain ⟨m8, hrun, -, -, -, -, h⟩ := trialsPrefix_spec steps 8 hne hcur hprev hborder
    exact ⟨m8, by rw [trials_eq_trialsPrefix]; exact hrun, h⟩

theorem trials_continue_generations_witness :
    (trialsPrefix 5 ((2 : Nat) : Int) ((3 + 1 : Nat) : Int) staleMachine5 =
      (trialsPrefix 5 ((2 : Nat) : Int) ((3 : Nat) : Int) staleMachine5).bind
        (stepLoop 5 ((2 : Nat) : Int))) ∧
    (∃ mk, trialsPrefix 5 ((2 : Nat) : Int) ((3 : Nat) : Int) staleMachine5 = some mk ∧
      mk.deref mk.previous =
        (nextGen 5)^[3 * 2] (staleMachine5.deref staleMachine5.previous)) ∧
    (∃ m8, trials 5 ((2 : Nat) : Int) staleMachine5 = some m8 ∧
      m8.deref m8.previous =
        (nextGen 5)^[8 * 2] (staleMachine5.deref staleMachine5.previous)) :=
  trials_continue_generations 5 2 3 staleMachine5 (by decide) (by decide) (by decide)
    staleGrid5_border

end GameOfLife
